import Mathlib

/-!
Shallow embedding of the rust-prehistory runtime core (src/rt/rust.c).

Pointers are modelled as natural numbers (proc / port / chan handles and
memory addresses).  The heap records reachable from the runtime are kept in
total maps `Nat → Proc` etc.; a record that was never allocated holds the
zero-initialised defaults, mirroring `xcalloc`.  The two scheduler vectors
`running_procs` / `blocked_procs` are modelled by the lists of the handles
stored in their live range `data[0..init-1]`; the capacity (`alloc`) side of
`ptr_vec` is modelled separately (see `PV` below) because `ptr_vec_trim`
never changes the live contents.  The PRNG is modelled by passing the random
number as an explicit argument, and `exit` by returning the exit code.
-/

/-- proc_state_t from rust.c. -/
inductive ProcState
  | running
  | calling_c
  | exiting
  | blocked_reading
  | blocked_writing
deriving DecidableEq, Repr

/-- True for the two blocked states. -/
def ProcState.isBlocked : ProcState → Bool
  | .blocked_reading => true
  | .blocked_writing => true
  | _ => false

/-- Which scheduler vector holds a proc in this state: `true` = running_procs,
`false` = blocked_procs.  Mirrors `get_state_vec`. -/
def stateVecClass : ProcState → Bool
  | .running => true
  | .calling_c => true
  | .exiting => true
  | .blocked_reading => false
  | .blocked_writing => false

/-- rust_proc: the fields the claims depend on.  A proc fresh out of
`xcalloc` has every field zero, which is the default value here
(`proc_state_running = 0`). -/
structure Proc where
  state : ProcState := .running
  idx : Nat := 0
  ucode : Nat := 0
  args : Fin 8 → Nat := fun _ => 0

/-- rust_port: owning receiver proc and the vector of queued writer chans. -/
structure Port where
  proc : Option Nat := none
  writers : List Nat := []

/-- rust_chan: bound port, current sender, queued flag and writer-vector
index. -/
structure Chan where
  port : Nat := 0
  proc : Nat := 0
  queued : Bool := false
  idx : Nat := 0

/-- rust_rt together with the heap of records reachable from it. -/
structure RTState where
  procs : Nat → Proc := fun _ => {}
  ports : Nat → Port := fun _ => {}
  chans : Nat → Chan := fun _ => {}
  running : List Nat := []
  blocked : List Nat := []
  mem : Nat → Nat := fun _ => 0
  procAlive : Nat → Bool := fun _ => false
  portAlive : Nat → Bool := fun _ => false
  chanAlive : Nat → Bool := fun _ => false

/-- The state right after `new_rt`: both vectors empty, nothing allocated. -/
def initState : RTState := {}

/-- The scheduler vector of class `b` (`true` = running_procs). -/
def vecB (s : RTState) (b : Bool) : List Nat :=
  if b then s.running else s.blocked

/-- Replace the scheduler vector of class `b`. -/
def setVecB (s : RTState) (b : Bool) (l : List Nat) : RTState :=
  if b then { s with running := l } else { s with blocked := l }

/-- get_state_vec from rust.c. -/
def get_state_vec (s : RTState) (st : ProcState) : List Nat :=
  vecB s (stateVecClass st)

/-- ptr_vec_swapdel on the live contents: `init--; if (init > 0)
data[i] = data[init]`. -/
def ptr_vec_swapdel (l : List Nat) (i : Nat) : List Nat :=
  (l.set i (l.getD (l.length - 1) 0)).take (l.length - 1)

/-- proc_vec_swapdel from rust.c: swap-delete the proc out of the scheduler
vector currently holding it and patch the `idx` field of the element that was
swapped into its slot.  `ptr_vec_trim` only shrinks capacity, so it has no
effect on this model. -/
def proc_vec_swapdel (s : RTState) (p : Nat) : RTState :=
  let st := (s.procs p).state
  let v := get_state_vec s st
  let i := (s.procs p).idx
  let n := v.length - 1
  let s1 := setVecB s (stateVecClass st) (ptr_vec_swapdel v i)
  if 0 < n then
    let moved := v.getD n 0
    { s1 with procs := Function.update s1.procs moved { s1.procs moved with idx := i } }
  else s1

/-- remove_proc_from_state_vec: proc_vec_swapdel followed by a trim (the trim
only affects capacity). -/
def remove_proc_from_state_vec (s : RTState) (p : Nat) : RTState :=
  proc_vec_swapdel s p

/-- add_proc_to_state_vec: `proc->idx = v->init; ptr_vec_push(v, proc)`. -/
def add_proc_to_state_vec (s : RTState) (p : Nat) : RTState :=
  let st := (s.procs p).state
  let v := get_state_vec s st
  let s1 := { s with procs := Function.update s.procs p { s.procs p with idx := v.length } }
  setVecB s1 (stateVecClass st) (v ++ [p])

/-- proc_state_transition: assert(proc->state == src) (stated as a hypothesis
in the theorems below); remove from the current vector; set state; re-add. -/
def proc_state_transition (s : RTState) (p : Nat) (dst : ProcState) : RTState :=
  let s1 := remove_proc_from_state_vec s p
  let s2 := { s1 with procs := Function.update s1.procs p { s1.procs p with state := dst } }
  add_proc_to_state_vec s2 p

/-- exit_proc: swap-delete from the current vector, free the proc
(`del_proc`), trim. -/
def exit_proc (s : RTState) (p : Nat) : RTState :=
  let s1 := proc_vec_swapdel s p
  { s1 with procAlive := Function.update s1.procAlive p false }

/-- sched from rust.c, with the PRNG draw `r` passed in.  `Sum.inl p` is a
normally scheduled proc; `Sum.inr c` means the process terminated via
`exit(c)` ("no schedulable processes"). -/
def sched (s : RTState) (r : Nat) : Nat ⊕ Nat :=
  if 0 < s.running.length then
    Sum.inl (s.running.getD (r % s.running.length) 0)
  else Sum.inr 1

/-- chan_vec_swapdel from rust.c, on port `pt`'s writer vector, using the
chan's own `idx` field, patching the swapped-in chan's `idx`. -/
def chan_vec_swapdel (s : RTState) (pt c : Nat) : RTState :=
  let v := (s.ports pt).writers
  let i := (s.chans c).idx
  let n := v.length - 1
  let s1 := { s with ports := Function.update s.ports pt { s.ports pt with writers := ptr_vec_swapdel v i } }
  if 0 < n then
    let moved := v.getD n 0
    { s1 with chans := Function.update s1.chans moved { s1.chans moved with idx := i } }
  else s1

/-- attempt_rendezvous from rust.c.  Returns the C `int` result as a `Bool`
together with the post-state. -/
def attempt_rendezvous (s : RTState) (src dst : Nat) : Bool × RTState :=
  if (s.procs src).state = .blocked_writing ∧ (s.procs dst).state = .blocked_reading then
    let sval := (s.procs src).args 1
    let dptr := (s.procs dst).args 0
    let s1 := { s with mem := Function.update s.mem dptr sval }
    let s2 := proc_state_transition s1 src .running
    let s3 := proc_state_transition s2 dst .running
    (true, s3)
  else (false, s)

/-- upcall_send from rust.c.  `chan->proc = src` happens first in every path;
then, if the port has an owner, transition the sender to blocked_writing,
attempt the rendezvous, and queue the chan when the rendezvous failed and the
chan is not already queued.  Without an owner this is a "dead send": log and
return. -/
def upcall_send (s : RTState) (src c : Nat) : RTState :=
  let s0 := { s with chans := Function.update s.chans c { s.chans c with proc := src } }
  match (s0.ports (s0.chans c).port).proc with
  | some powner =>
    let s1 := proc_state_transition s0 src .blocked_writing
    let res := attempt_rendezvous s1 src powner
    if res.1 || (res.2.chans c).queued then res.2
    else
      let pt := (res.2.chans c).port
      let w := (res.2.ports pt).writers
      let s3 := { res.2 with chans := Function.update res.2.chans c { res.2.chans c with idx := w.length, queued := true } }
      { s3 with ports := Function.update s3.ports pt { s3.ports pt with writers := w ++ [c] } }
  | none => s0

/-- upcall_recv from rust.c, with the PRNG draw `r` passed in.
assert(port->proc == dst) is stated as a hypothesis in the theorems. -/
def upcall_recv (s : RTState) (dst pt : Nat) (r : Nat) : RTState :=
  let s1 := proc_state_transition s dst .blocked_reading
  let w := (s1.ports pt).writers
  if 0 < w.length then
    let i := r % w.length
    let c := w.getD i 0
    let src := (s1.chans c).proc
    let res := attempt_rendezvous s1 src dst
    if res.1 then
      let s3 := chan_vec_swapdel res.2 pt c
      { s3 with chans := Function.update s3.chans c { s3.chans c with queued := false } }
    else res.2
  else s1

/-- upcall_del_chan from rust.c: free the chan (fini its empty buf).  It does
NOT touch the port's writer vector. -/
def upcall_del_chan (s : RTState) (c : Nat) : RTState :=
  { s with chanAlive := Function.update s.chanAlive c false }

/-- upcall_check_expr: on a zero argument, mark the calling proc Exiting. -/
def upcall_check_expr (s : RTState) (p : Nat) (i : Nat) : RTState :=
  if i = 0 then
    { s with procs := Function.update s.procs p { s.procs p with state := .exiting } }
  else s

/-- handle_upcall from rust.c.  `fresh` stands for the address returned by
the allocator for the cases that allocate (spawn / malloc / new_port /
new_chan) and `r` for the PRNG draw used by recv.  After the switch the
upcall code slot is zeroed. -/
def handle_upcall (s : RTState) (q : Nat) (fresh r : Nat) : RTState :=
  let a := (s.procs q).args
  let s1 :=
    match (s.procs q).ucode with
    | 0 => s   -- log_uint32
    | 1 => s   -- log_str
    | 2 =>     -- spawn: *(args[0]) = spawn_proc(rt, args[1])
      let t := { s with procs := Function.update s.procs fresh {},
                        procAlive := Function.update s.procAlive fresh true }
      { t with mem := Function.update t.mem (a 0) fresh }
    | 3 => upcall_check_expr s q (a 0)
    | 4 => { s with mem := Function.update s.mem (a 0) fresh }  -- malloc
    | 5 => s   -- free
    | 6 =>     -- new_port, owned by the calling proc
      let t := { s with ports := Function.update s.ports fresh { proc := some q, writers := [] },
                        portAlive := Function.update s.portAlive fresh true }
      { t with mem := Function.update t.mem (a 0) fresh }
    | 7 => { s with portAlive := Function.update s.portAlive (a 0) false }  -- del_port
    | 8 =>     -- new_chan, bound to port args[1]
      let t := { s with chans := Function.update s.chans fresh { port := a 1, proc := q, queued := false, idx := 0 },
                        chanAlive := Function.update s.chanAlive fresh true }
      { t with mem := Function.update t.mem (a 0) fresh }
    | 9 => upcall_del_chan s (a 1)   -- del_chan reads args[1]
    | 10 => upcall_send s q (a 0)
    | 11 => upcall_recv s q (a 1) r
    | 12 => add_proc_to_state_vec s (a 0)  -- sched
    | _ => s
  { s1 with procs := Function.update s1.procs q { s1.procs q with ucode := 0 } }

/-- The trampoline (c-to-proc glue) returning: the proc comes back with a new
state, upcall code and arguments of its own choosing, and may have written
memory. -/
def glue_return (s : RTState) (q : Nat) (t : ProcState) (ar : Fin 8 → Nat)
    (uc : Nat) (nm : Nat → Nat) : RTState :=
  { s with procs := Function.update s.procs q { s.procs q with state := t, args := ar, ucode := uc },
           mem := nm }

/-- One dispatch step of the driver loop in rust_start, after the trampoline
returned: Running falls through; CallingC runs the dispatcher and resets a
still-CallingC proc to Running; Exiting destroys the proc.  The blocked
states are asserted unreachable in rust.c and the step relation below never
produces them. -/
def driver_dispatch (s : RTState) (q fresh r : Nat) : RTState :=
  match (s.procs q).state with
  | .running => s
  | .calling_c =>
    let s1 := handle_upcall s q fresh r
    if (s1.procs q).state = .calling_c then
      { s1 with procs := Function.update s1.procs q { s1.procs q with state := .running } }
    else s1
  | .exiting => exit_proc s q
  | _ => s

/-- One observable step of the runtime:
* `new_proc`: a proc record is allocated (root spawn or spawn upcall) at a
  fresh address, zeroed, state Running; it is NOT put in any vector;
* `register`: `add_proc_to_state_vec` on a live, unregistered Running proc
  (the root spawn's registration, or the sched upcall);
* `iter`: one full iteration of the driver loop: a proc of the running
  vector runs (the driver sets it Running first), its trampoline returns
  with a non-blocked state, new upcall data and arbitrary memory effects,
  and the driver dispatches.  Allocating upcalls get a fresh address, and
  the sched upcall's argument must be a live, unregistered Running proc
  (rust.c would corrupt its vectors otherwise; compiled code only passes
  procs freshly created by spawn). -/
inductive Step : RTState → RTState → Prop
  | new_proc (s : RTState) (fresh : Nat)
      (hf : s.procAlive fresh = false) :
      Step s { s with procs := Function.update s.procs fresh {},
                      procAlive := Function.update s.procAlive fresh true }
  | register (s : RTState) (p : Nat)
      (ha : s.procAlive p = true)
      (hst : (s.procs p).state = .running)
      (hr : p ∉ s.running) (hb : p ∉ s.blocked) :
      Step s (add_proc_to_state_vec s p)
  | iter (s : RTState) (q : Nat) (t : ProcState) (ar : Fin 8 → Nat)
      (uc : Nat) (nm : Nat → Nat) (fresh r : Nat)
      (hq : q ∈ s.running)
      (ht : stateVecClass t = true)
      (hfresh : s.procAlive fresh = false ∧ s.portAlive fresh = false ∧
        s.chanAlive fresh = false)
      (hsched : uc = 12 → t = .calling_c →
        s.procAlive (ar 0) = true ∧ (s.procs (ar 0)).state = .running ∧
        ar 0 ∉ s.running ∧ ar 0 ∉ s.blocked) :
      Step s (driver_dispatch (glue_return s q t ar uc nm) q fresh r)

/-- States of the driver loop: reachable from the freshly created runtime by
runtime steps. -/
def Reachable (s : RTState) : Prop :=
  Relation.ReflTransGen Step initState s

/-! ### The ptr_vec capacity policy (claim C9)

`ptr_vec_push` / `ptr_vec_trim` manage `alloc` (capacity, in slots) and
`init` (live count).  The contents are irrelevant to the policy, so the
model keeps just the two counters.  `ptr_vec_trim`'s
`assert(v->alloc >= v->init)` is modelled by returning `none` when the
assert would fire (the C program aborts there). -/

/-- INIT_PTR_VEC_SZ. -/
def INIT_PTR_VEC_SZ : Nat := 8

/-- The counters of a ptr_vec. -/
structure PV where
  alloc : Nat
  init : Nat
deriving DecidableEq, Repr

/-- init_ptr_vec: capacity 8, empty. -/
def pv_new : PV := ⟨INIT_PTR_VEC_SZ, 0⟩

/-- ptr_vec_push: double the capacity exactly when full, then append. -/
def pv_push (v : PV) : PV :=
  if v.init = v.alloc then ⟨v.alloc * 2, v.init + 1⟩ else ⟨v.alloc, v.init + 1⟩

/-- ptr_vec_trim with supplied live count `n`: halve the capacity when
`n <= alloc/4` and `alloc/2 >= 8`; `none` when the subsequent
`assert(alloc >= init)` would fail. -/
def pv_trim (v : PV) (n : Nat) : Option PV :=
  if n ≤ v.alloc / 4 ∧ INIT_PTR_VEC_SZ ≤ v.alloc / 2 then
    if v.init ≤ v.alloc / 2 then some ⟨v.alloc / 2, v.init⟩ else none
  else some v

/-- A push or a trim (with its supplied live count). -/
inductive PVOp
  | push
  | trim (n : Nat)

/-- Run a sequence of push/trim operations. -/
def pv_run : List PVOp → PV → Option PV
  | [], v => some v
  | .push :: ops, v => pv_run ops (pv_push v)
  | .trim n :: ops, v => (pv_trim v n).bind (pv_run ops)

/-- The ptr_vec counter invariant: live count within capacity, capacity at
least 8 and a power of two.  (`0 ≤ init` of the claim is trivial for `Nat`.) -/
def pv_inv (v : PV) : Prop :=
  v.init ≤ v.alloc ∧ INIT_PTR_VEC_SZ ≤ v.alloc ∧ ∃ k, v.alloc = 2 ^ k

/-! ### The initial stack frame of new_proc (claim C4)

Word size is 8 bytes (64-bit `uintptr_t`).  `base` is the address of
`stk->data[0]`.  new_proc points sp at the last word-sized cell of the
segment, aligns down to 16, and then seeds the frame with eight descending
word stores. -/

/-- n_callee_saves from rust.c. -/
def n_callee_saves : Nat := 4

/-- init_stk_bytes from rust.c. -/
def init_stk_bytes : Nat := 65536

/-- Bytes per `uintptr_t` (the model fixes a 64-bit platform). -/
def wordBytes : Nat := 8

/-- `x & ~0xf`: align down to a 16-byte boundary. -/
def align16 (a : Nat) : Nat := a - a % 16

/-- The address `proc->sp` holds right after the alignment, i.e. the top
cell of the initial frame:
`align16 (&stk->data[init_stk_bytes - sizeof(uintptr_t)])`. -/
def new_proc_top (base : Nat) : Nat :=
  align16 (base + init_stk_bytes - wordBytes)

/-- The final saved `proc->sp`:
`top - (3 + n_callee_saves) * sizeof(uintptr_t)`. -/
def new_proc_sp (base : Nat) : Nat :=
  new_proc_top base - (3 + n_callee_saves) * wordBytes

/-- The eight descending word stores of new_proc, starting at the aligned
top address `top`:
`*sp-- = proc; *sp-- = 0; *sp-- = main_code; *sp-- = main_code;`
then `n_callee_saves` zeroed callee-save words. -/
def seed_frame (m : Nat → Nat) (top procPtr mainCode : Nat) : Nat → Nat :=
  let m1 := Function.update m top procPtr
  let m2 := Function.update m1 (top - 1 * wordBytes) 0
  let m3 := Function.update m2 (top - 2 * wordBytes) mainCode
  let m4 := Function.update m3 (top - 3 * wordBytes) mainCode
  let m5 := Function.update m4 (top - 4 * wordBytes) 0
  let m6 := Function.update m5 (top - 5 * wordBytes) 0
  let m7 := Function.update m6 (top - 6 * wordBytes) 0
  Function.update m7 (top - 7 * wordBytes) 0

/-- The memory of a proc's stack after new_proc seeded it. -/
def new_proc_mem (m : Nat → Nat) (base procPtr mainCode : Nat) : Nat → Nat :=
  seed_frame m (new_proc_top base) procPtr mainCode

/-! ### del_all_procs (claim C10)

`while (v->init) { del_proc(v->data[v->init--]); }` — the C post-decrement
yields the OLD value of `init`, so the slot read in each iteration is the
current live count itself.  This function returns the list of slot indices
read (and freed), in order, for a vector with live count `n`. -/

/-- The slot indices `del_all_procs` reads from `v->data`, first to last. -/
def del_all_procs_accessed : Nat → List Nat
  | 0 => []
  | n + 1 => (n + 1) :: del_all_procs_accessed n

/-! ### List-level facts about ptr_vec_swapdel -/

theorem getD_mem_of_lt {l : List Nat} {i : Nat} (h : i < l.length) : l.getD i 0 ∈ l := by
  rw [List.getD_eq_getElem l 0 h]; exact List.getElem_mem h

theorem mem_of_getD {l : List Nat} {j x : Nat} (hj : j < l.length)
    (he : l.getD j 0 = x) : x ∈ l :=
  he ▸ getD_mem_of_lt hj

theorem nodup_getD_inj {l : List Nat} (h : l.Nodup) {i j : Nat}
    (hi : i < l.length) (hj : j < l.length) (he : l.getD i 0 = l.getD j 0) : i = j := by
  rw [List.getD_eq_getElem l 0 hi, List.getD_eq_getElem l 0 hj] at he
  exact (List.Nodup.getElem_inj_iff h).mp he

theorem swapdel_length (l : List Nat) (i : Nat) :
    (ptr_vec_swapdel l i).length = l.length - 1 := by
  simp [ptr_vec_swapdel]

theorem swapdel_getD {l : List Nat} {i j : Nat} (hj : j < l.length - 1) :
    (ptr_vec_swapdel l i).getD j 0 =
      if j = i then l.getD (l.length - 1) 0 else l.getD j 0 := by
  have hjl : j < l.length := by omega
  unfold ptr_vec_swapdel
  rw [List.getD_eq_getElem?_getD, List.getElem?_take, if_pos hj]
  rcases eq_or_ne j i with rfl | hne
  · rw [if_pos rfl]
    rw [show (l.set j (l.getD (l.length - 1) 0))[j]? = some (l.getD (l.length - 1) 0) from by
      simp [List.getElem?_set_self, hjl]]
    rfl
  · rw [if_neg hne]
    rw [List.getElem?_set_ne (fun hh => hne hh.symm)]
    rw [List.getElem?_eq_getElem hjl, List.getD_eq_getElem l 0 hjl]
    rfl

theorem swapdel_nodup {l : List Nat} {i : Nat} (h : l.Nodup) :
    (ptr_vec_swapdel l i).Nodup := by
  rw [List.nodup_iff_injective_getElem]
  rintro ⟨a, ha⟩ ⟨b, hb⟩ he
  simp only at he
  have ha1 : a < l.length - 1 := by simpa [swapdel_length] using ha
  have hb1 : b < l.length - 1 := by simpa [swapdel_length] using hb
  have hae : (ptr_vec_swapdel l i)[a] = (ptr_vec_swapdel l i).getD a 0 :=
    (List.getD_eq_getElem _ 0 ha).symm
  have hbe : (ptr_vec_swapdel l i)[b] = (ptr_vec_swapdel l i).getD b 0 :=
    (List.getD_eq_getElem _ 0 hb).symm
  rw [hae, hbe, swapdel_getD ha1, swapdel_getD hb1] at he
  have hn : l.length - 1 < l.length := by omega
  apply Fin.ext
  simp only
  split at he <;> split at he
  · omega
  · have := nodup_getD_inj h hn (by omega) he; omega
  · have := nodup_getD_inj h (by omega) hn he; omega
  · exact nodup_getD_inj h (by omega) (by omega) he

theorem swapdel_mem {l : List Nat} {i x : Nat} (hx : x ∈ ptr_vec_swapdel l i) : x ∈ l := by
  obtain ⟨j, hj, he⟩ := List.getElem_of_mem hx
  have hj1 : j < l.length - 1 := by simpa [swapdel_length] using hj
  rw [← List.getD_eq_getElem _ 0 hj, swapdel_getD hj1] at he
  split at he
  · rw [← he]; exact getD_mem_of_lt (by omega)
  · rw [← he]; exact getD_mem_of_lt (by omega)

theorem swapdel_not_mem {l : List Nat} {i : Nat} (h : l.Nodup) (hi : i < l.length) :
    l.getD i 0 ∉ ptr_vec_swapdel l i := by
  intro hx
  obtain ⟨j, hj, he⟩ := List.getElem_of_mem hx
  have hj1 : j < l.length - 1 := by simpa [swapdel_length] using hj
  rw [← List.getD_eq_getElem _ 0 hj, swapdel_getD hj1] at he
  split at he
  · next hji => have := nodup_getD_inj h (by omega) hi he; omega
  · next hji => exact hji (nodup_getD_inj h (by omega) hi he)

theorem mem_swapdel_of_mem {l : List Nat} {i x : Nat} (h : l.Nodup) (hi : i < l.length)
    (hx : x ∈ l) (hne : x ≠ l.getD i 0) : x ∈ ptr_vec_swapdel l i := by
  obtain ⟨k, hk, he⟩ := List.getElem_of_mem hx
  have hki : k ≠ i := by
    intro hh
    subst hh
    rw [List.getD_eq_getElem l 0 hi] at hne
    exact hne he.symm
  have hgd : l.getD k 0 = x := by rw [List.getD_eq_getElem l 0 hk]; exact he
  by_cases hkn : k < l.length - 1
  · have hh : (ptr_vec_swapdel l i).getD k 0 = x := by
      rw [swapdel_getD hkn, if_neg hki]; exact hgd
    rw [← hh]; exact getD_mem_of_lt (by rw [swapdel_length]; exact hkn)
  · have hkeq : k = l.length - 1 := by omega
    have hin : i < l.length - 1 := by omega
    have hh : (ptr_vec_swapdel l i).getD i 0 = x := by
      rw [swapdel_getD hin, if_pos rfl, ← hkeq]; exact hgd
    rw [← hh]; exact getD_mem_of_lt (by rw [swapdel_length]; exact hin)

theorem mem_swapdel_iff {l : List Nat} {i x : Nat} (h : l.Nodup) (hi : i < l.length) :
    x ∈ ptr_vec_swapdel l i ↔ x ∈ l ∧ x ≠ l.getD i 0 := by
  constructor
  · intro hx
    refine ⟨swapdel_mem hx, ?_⟩
    intro hh
    exact swapdel_not_mem h hi (hh ▸ hx)
  · intro hx
    exact mem_swapdel_of_mem h hi hx.1 hx.2

theorem getD_append_left {l : List Nat} {x j : Nat} (hj : j < l.length) :
    (l ++ [x]).getD j 0 = l.getD j 0 := by
  rw [List.getD_eq_getElem _ 0 (by simp; omega), List.getD_eq_getElem l 0 hj]
  exact List.getElem_append_left hj

theorem getD_append_last (l : List Nat) (x : Nat) : (l ++ [x]).getD l.length 0 = x := by
  rw [List.getD_eq_getElem _ 0 (by simp)]
  simp

/-! ### Characterizations of the scheduler-vector operations -/

theorem vecB_setVecB (s : RTState) (b b' : Bool) (l : List Nat) :
    vecB (setVecB s b l) b' = if b' = b then l else vecB s b' := by
  cases b <;> cases b' <;> simp [vecB, setVecB]

theorem update_proc_rec_state (f : Nat → Proc) (m : Nat) (r : Proc) (x : Nat)
    (hs : r.state = (f m).state) :
    ((Function.update f m r) x).state = (f x).state := by
  rcases eq_or_ne x m with rfl | hne
  · simp [hs]
  · simp [Function.update_noteq hne]


theorem procs_setVecB (s : RTState) (b : Bool) (l : List Nat) :
    (setVecB s b l).procs = s.procs := by cases b <;> rfl

theorem mem_setVecB (s : RTState) (b : Bool) (l : List Nat) :
    (setVecB s b l).mem = s.mem := by cases b <;> rfl

theorem ports_setVecB (s : RTState) (b : Bool) (l : List Nat) :
    (setVecB s b l).ports = s.ports := by cases b <;> rfl

theorem chans_setVecB (s : RTState) (b : Bool) (l : List Nat) :
    (setVecB s b l).chans = s.chans := by cases b <;> rfl

theorem procAlive_setVecB (s : RTState) (b : Bool) (l : List Nat) :
    (setVecB s b l).procAlive = s.procAlive := by cases b <;> rfl

theorem portAlive_setVecB (s : RTState) (b : Bool) (l : List Nat) :
    (setVecB s b l).portAlive = s.portAlive := by cases b <;> rfl

theorem chanAlive_setVecB (s : RTState) (b : Bool) (l : List Nat) :
    (setVecB s b l).chanAlive = s.chanAlive := by cases b <;> rfl

theorem proc_vec_swapdel_procs (s : RTState) (p x : Nat) :
    (proc_vec_swapdel s p).procs x =
      if 0 < (vecB s (stateVecClass (s.procs p).state)).length - 1 ∧
          x = (vecB s (stateVecClass (s.procs p).state)).getD
            ((vecB s (stateVecClass (s.procs p).state)).length - 1) 0
      then { s.procs x with idx := (s.procs p).idx }
      else s.procs x := by
  unfold proc_vec_swapdel get_state_vec
  dsimp only
  split
  · next hn =>
    dsimp only
    rw [procs_setVecB]
    by_cases hx : x = (vecB s (stateVecClass (s.procs p).state)).getD
        ((vecB s (stateVecClass (s.procs p).state)).length - 1) 0
    · subst hx
      rw [Function.update_same, if_pos ⟨hn, rfl⟩]
    · rw [Function.update_noteq hx, if_neg (fun hh => hx hh.2)]
  · next hn =>
    rw [procs_setVecB, if_neg (fun hh => hn hh.1)]

theorem proc_vec_swapdel_vecB (s : RTState) (p : Nat) (b : Bool) :
    vecB (proc_vec_swapdel s p) b =
      if b = stateVecClass (s.procs p).state
      then ptr_vec_swapdel (vecB s b) (s.procs p).idx
      else vecB s b := by
  unfold proc_vec_swapdel get_state_vec
  dsimp only
  split
  · next hn =>
    show vecB (setVecB s (stateVecClass (s.procs p).state) _) b = _
    rw [vecB_setVecB]
    split
    · next hh => rw [hh]
    · rfl
  · next hn =>
    rw [vecB_setVecB]
    split
    · next hh => rw [hh]
    · rfl

theorem proc_vec_swapdel_scalars (s : RTState) (p : Nat) :
    (proc_vec_swapdel s p).mem = s.mem ∧
    (proc_vec_swapdel s p).ports = s.ports ∧
    (proc_vec_swapdel s p).chans = s.chans ∧
    (proc_vec_swapdel s p).procAlive = s.procAlive ∧
    (proc_vec_swapdel s p).portAlive = s.portAlive ∧
    (proc_vec_swapdel s p).chanAlive = s.chanAlive := by
  unfold proc_vec_swapdel get_state_vec
  dsimp only
  split <;>
    exact ⟨mem_setVecB .., ports_setVecB .., chans_setVecB .., procAlive_setVecB ..,
      portAlive_setVecB .., chanAlive_setVecB ..⟩

theorem add_proc_procs (s : RTState) (p x : Nat) :
    (add_proc_to_state_vec s p).procs x =
      if x = p
      then { s.procs p with idx := (vecB s (stateVecClass (s.procs p).state)).length }
      else s.procs x := by
  unfold add_proc_to_state_vec get_state_vec
  dsimp only
  rw [procs_setVecB]
  dsimp only
  by_cases hx : x = p
  · subst hx; rw [Function.update_same, if_pos rfl]
  · rw [Function.update_noteq hx, if_neg hx]

theorem add_proc_vecB (s : RTState) (p : Nat) (b : Bool) :
    vecB (add_proc_to_state_vec s p) b =
      if b = stateVecClass (s.procs p).state
      then vecB s b ++ [p]
      else vecB s b := by
  unfold add_proc_to_state_vec get_state_vec
  dsimp only
  rw [vecB_setVecB]
  split
  · next hh => rw [hh]
  · rfl

theorem add_proc_scalars (s : RTState) (p : Nat) :
    (add_proc_to_state_vec s p).mem = s.mem ∧
    (add_proc_to_state_vec s p).ports = s.ports ∧
    (add_proc_to_state_vec s p).chans = s.chans ∧
    (add_proc_to_state_vec s p).procAlive = s.procAlive ∧
    (add_proc_to_state_vec s p).portAlive = s.portAlive ∧
    (add_proc_to_state_vec s p).chanAlive = s.chanAlive := by
  unfold add_proc_to_state_vec get_state_vec
  dsimp only
  exact ⟨mem_setVecB .., ports_setVecB .., chans_setVecB .., procAlive_setVecB ..,
    portAlive_setVecB .., chanAlive_setVecB ..⟩

theorem chan_vec_swapdel_ports (s : RTState) (pt c pt' : Nat) :
    (chan_vec_swapdel s pt c).ports pt' =
      if pt' = pt
      then { s.ports pt with
             writers := ptr_vec_swapdel (s.ports pt).writers (s.chans c).idx }
      else s.ports pt' := by
  unfold chan_vec_swapdel
  dsimp only
  split
  all_goals dsimp only
  · next hn =>
    by_cases hx : pt' = pt
    · subst hx; rw [Function.update_same, if_pos rfl]
    · rw [Function.update_noteq hx, if_neg hx]
  · next hn =>
    by_cases hx : pt' = pt
    · subst hx; rw [Function.update_same, if_pos rfl]
    · rw [Function.update_noteq hx, if_neg hx]

theorem chan_vec_swapdel_chans (s : RTState) (pt c x : Nat) :
    (chan_vec_swapdel s pt c).chans x =
      if 0 < (s.ports pt).writers.length - 1 ∧
          x = (s.ports pt).writers.getD ((s.ports pt).writers.length - 1) 0
      then { s.chans x with idx := (s.chans c).idx }
      else s.chans x := by
  unfold chan_vec_swapdel
  dsimp only
  split
  all_goals dsimp only
  · next hn =>
    by_cases hx : x = (s.ports pt).writers.getD ((s.ports pt).writers.length - 1) 0
    · subst hx; rw [Function.update_same, if_pos ⟨hn, rfl⟩]
    · rw [Function.update_noteq hx, if_neg (fun hh => hx hh.2)]
  · next hn =>
    rw [if_neg (fun hh => hn hh.1)]

theorem chan_vec_swapdel_scalars (s : RTState) (pt c : Nat) :
    (chan_vec_swapdel s pt c).procs = s.procs ∧
    (chan_vec_swapdel s pt c).running = s.running ∧
    (chan_vec_swapdel s pt c).blocked = s.blocked ∧
    (chan_vec_swapdel s pt c).mem = s.mem ∧
    (chan_vec_swapdel s pt c).procAlive = s.procAlive ∧
    (chan_vec_swapdel s pt c).portAlive = s.portAlive ∧
    (chan_vec_swapdel s pt c).chanAlive = s.chanAlive := by
  unfold chan_vec_swapdel
  dsimp only
  split <;> exact ⟨rfl, rfl, rfl, rfl, rfl, rfl, rfl⟩

/-! ### The scheduler-vector well-formedness invariant -/

/-- The elements of the class-`b` scheduler vector are procs of matching
state class, carrying their own position in `idx`, and live. -/
def vecOK (s : RTState) (b : Bool) : Prop :=
  ∀ i, i < (vecB s b).length →
    stateVecClass (s.procs ((vecB s b).getD i 0)).state = b ∧
    (s.procs ((vecB s b).getD i 0)).idx = i ∧
    s.procAlive ((vecB s b).getD i 0) = true

/-- Scheduler-vector well-formedness: both vectors are `vecOK`, have no
duplicates (also across each other), and every proc record in a blocked
state is stored in the blocked vector at its `idx`. -/
structure WF (s : RTState) : Prop where
  vecs : ∀ b, vecOK s b
  nd : ∀ b, (vecB s b).Nodup
  disj : ∀ x, x ∈ s.running → x ∉ s.blocked
  blkc : ∀ p, (s.procs p).state.isBlocked = true →
    (s.procs p).idx < s.blocked.length ∧ s.blocked.getD (s.procs p).idx 0 = p

/-- Well-formedness with proc `p` exempted: `p` is in neither vector and the
blocked-placement clause skips it.  This is the intermediate invariant
between a removal and the re-insertion. -/
structure WFx (s : RTState) (p : Nat) : Prop where
  vecs : ∀ b, vecOK s b
  nd : ∀ b, (vecB s b).Nodup
  disj : ∀ x, x ∈ s.running → x ∉ s.blocked
  notin : ∀ b, p ∉ vecB s b
  blkc : ∀ q, q ≠ p → (s.procs q).state.isBlocked = true →
    (s.procs q).idx < s.blocked.length ∧ s.blocked.getD (s.procs q).idx 0 = q

theorem isBlocked_iff_class (st : ProcState) :
    st.isBlocked = true ↔ stateVecClass st = false := by
  cases st <;> simp [ProcState.isBlocked, stateVecClass]

theorem mem_placed {s : RTState} (h : WF s) {p : Nat} {b : Bool} (hp : p ∈ vecB s b) :
    stateVecClass (s.procs p).state = b ∧
    (s.procs p).idx < (vecB s b).length ∧
    (vecB s b).getD (s.procs p).idx 0 = p ∧
    s.procAlive p = true := by
  obtain ⟨j, hj, he⟩ := List.getElem_of_mem hp
  have hgd : (vecB s b).getD j 0 = p := by rw [List.getD_eq_getElem _ 0 hj]; exact he
  obtain ⟨h1, h2, h3⟩ := h.vecs b j hj
  rw [hgd] at h1 h2 h3
  refine ⟨h1, ?_, ?_, h3⟩
  · rw [h2]; exact hj
  · rw [h2]; exact hgd

theorem disjB {s : RTState} (h : WF s) {x : Nat} {b : Bool}
    (hx : x ∈ vecB s b) : x ∉ vecB s (!b) := by
  cases b
  · intro hr; exact h.disj x (by simpa [vecB] using hr) (by simpa [vecB] using hx)
  · intro hr; exact h.disj x (by simpa [vecB] using hx) (by simpa [vecB] using hr)

theorem blocked_mem {s : RTState} (h : WF s) {p : Nat}
    (hp : (s.procs p).state.isBlocked = true) : p ∈ vecB s false := by
  obtain ⟨h1, h2⟩ := h.blkc p hp
  have : (vecB s false).getD (s.procs p).idx 0 ∈ vecB s false :=
    getD_mem_of_lt (by simpa [vecB] using h1)
  rw [show (vecB s false) = s.blocked from rfl] at *
  rw [h2] at this
  exact this

theorem getD_ne_of_index_ne {l : List Nat} (h : l.Nodup) {i j : Nat}
    (hi : i < l.length) (hj : j < l.length) (hij : i ≠ j) :
    l.getD i 0 ≠ l.getD j 0 :=
  fun he => hij (nodup_getD_inj h hi hj he)

theorem proc_vec_swapdel_WFx {s : RTState} {p : Nat} {b : Bool} (h : WF s)
    (hb : stateVecClass (s.procs p).state = b)
    (hp : p ∈ vecB s b) :
    WFx (proc_vec_swapdel s p) p := by
  obtain ⟨_, hi, hgd, _⟩ := mem_placed h hp
  have V : ∀ b', vecB (proc_vec_swapdel s p) b' =
      if b' = b then ptr_vec_swapdel (vecB s b) (s.procs p).idx else vecB s b' := by
    intro b'
    rw [proc_vec_swapdel_vecB, hb]
    by_cases hbb : b' = b
    · subst hbb; simp
    · simp [hbb]
  have P : ∀ x, (proc_vec_swapdel s p).procs x =
      if 0 < (vecB s b).length - 1 ∧
          x = (vecB s b).getD ((vecB s b).length - 1) 0
      then { s.procs x with idx := (s.procs p).idx }
      else s.procs x := by
    intro x
    rw [proc_vec_swapdel_procs, hb]
  have A : (proc_vec_swapdel s p).procAlive = s.procAlive :=
    (proc_vec_swapdel_scalars s p).2.2.2.1
  have hlenpos : 0 < (vecB s b).length := lt_of_le_of_lt (Nat.zero_le _) hi
  have hmvd_mem : (vecB s b).getD ((vecB s b).length - 1) 0 ∈ vecB s b :=
    getD_mem_of_lt (by omega)
  -- state / args / ucode of every proc record are untouched
  have Pstate : ∀ x, ((proc_vec_swapdel s p).procs x).state = (s.procs x).state := by
    intro x; rw [P]; split <;> rfl
  constructor
  -- vecs
  · intro b' j hj
    rw [V] at hj ⊢
    by_cases hbb : b' = b
    · rw [if_pos hbb] at hj ⊢
      rw [hbb]
      have hjn : j < (vecB s b).length - 1 := by
        rw [swapdel_length] at hj; exact hj
      rw [swapdel_getD hjn]
      by_cases hji : j = (s.procs p).idx
      · rw [if_pos hji]
        have hn : 0 < (vecB s b).length - 1 := by omega
        rw [P, if_pos ⟨hn, rfl⟩]
        obtain ⟨c1, _, c3⟩ := h.vecs b ((vecB s b).length - 1) (by omega)
        refine ⟨c1, hji.symm, ?_⟩
        rw [A]; exact c3
      · rw [if_neg hji]
        have hne : (vecB s b).getD j 0 ≠
            (vecB s b).getD ((vecB s b).length - 1) 0 :=
          getD_ne_of_index_ne (h.nd b) (by omega) (by omega) (by omega)
        rw [P, if_neg (fun hc => hne hc.2)]
        obtain ⟨c1, c2, c3⟩ := h.vecs b j (by omega)
        refine ⟨c1, c2, ?_⟩
        rw [A]; exact c3
    · rw [if_neg hbb] at hj ⊢
      have hx : (vecB s b').getD j 0 ∈ vecB s b' := getD_mem_of_lt hj
      have hxm : (vecB s b').getD j 0 ≠ (vecB s b).getD ((vecB s b).length - 1) 0 := by
        intro he
        have : (vecB s b').getD j 0 ∈ vecB s b := he ▸ hmvd_mem
        have hnotb : (vecB s b').getD j 0 ∉ vecB s (!b') := by
          exact disjB h hx
        apply hnotb
        have : b = !b' := by cases b <;> cases b' <;> simp_all
        rw [← this]; assumption
      rw [P, if_neg (fun hc => hxm hc.2)]
      obtain ⟨c1, c2, c3⟩ := h.vecs b' j hj
      refine ⟨c1, c2, ?_⟩
      rw [A]; exact c3
  -- nd
  · intro b'
    rw [V]
    by_cases hbb : b' = b
    · rw [if_pos hbb]; exact swapdel_nodup (h.nd b)
    · rw [if_neg hbb]; exact h.nd b'
  -- disj
  · intro x hxr hxb
    have hr : x ∈ vecB (proc_vec_swapdel s p) true := by simpa [vecB] using hxr
    have hbl : x ∈ vecB (proc_vec_swapdel s p) false := by simpa [vecB] using hxb
    rw [V] at hr hbl
    have hrT : x ∈ vecB s true := by
      by_cases hbb : true = b
      · rw [if_pos hbb] at hr; rw [hbb]; exact swapdel_mem hr
      · rwa [if_neg hbb] at hr
    have hbF : x ∈ vecB s false := by
      by_cases hbb : false = b
      · rw [if_pos hbb] at hbl; rw [hbb]; exact swapdel_mem hbl
      · rwa [if_neg hbb] at hbl
    exact h.disj x (by simpa [vecB] using hrT) (by simpa [vecB] using hbF)
  -- notin
  · intro b'
    rw [V]
    by_cases hbb : b' = b
    · rw [if_pos hbb]
      intro hc
      exact swapdel_not_mem (h.nd b) hi (by rw [hgd]; exact hc)
    · rw [if_neg hbb]
      intro hc
      have : b' = !b := by cases b <;> cases b' <;> simp_all
      exact disjB h hp (this ▸ hc)
  -- blkc
  · intro q hq hblk
    rw [Pstate] at hblk
    obtain ⟨k1, k2⟩ := h.blkc q hblk
    have hqb : q ∈ vecB s false := blocked_mem h hblk
    have hVf : vecB (proc_vec_swapdel s p) false =
        if false = b then ptr_vec_swapdel (vecB s b) (s.procs p).idx
        else vecB s false := V false
    by_cases hbt : b = true
    · -- removal happened in the running vector; blocked is untouched
      subst hbt
      have hbl : vecB (proc_vec_swapdel s p) false = vecB s false := by
        rw [hVf]; simp
      have hqmvd : q ≠ (vecB s true).getD ((vecB s true).length - 1) 0 := by
        intro he
        exact disjB h hqb (by simpa using he ▸ hmvd_mem)
      have hPq : (proc_vec_swapdel s p).procs q = s.procs q := by
        rw [P, if_neg (fun hc => hqmvd hc.2)]
      show ((proc_vec_swapdel s p).procs q).idx < (proc_vec_swapdel s p).blocked.length ∧
        (proc_vec_swapdel s p).blocked.getD ((proc_vec_swapdel s p).procs q).idx 0 = q
      have hbleq : (proc_vec_swapdel s p).blocked = s.blocked := by
        have := hbl; simpa [vecB] using this
      rw [hPq, hbleq]
      exact ⟨k1, k2⟩
    · -- removal happened in the blocked vector
      have hbf : b = false := by cases b <;> simp_all
      subst hbf
      have hbl : vecB (proc_vec_swapdel s p) false =
          ptr_vec_swapdel (vecB s false) (s.procs p).idx := by
        rw [hVf]; simp
      have hkb : (s.procs q).idx < (vecB s false).length := by simpa [vecB] using k1
      have hkgd : (vecB s false).getD (s.procs q).idx 0 = q := by simpa [vecB] using k2
      have hqp : (s.procs q).idx ≠ (s.procs p).idx := by
        intro he
        apply hq
        rw [← hkgd, he, hgd]
      by_cases hqlast : (s.procs q).idx = (vecB s false).length - 1
      · -- q is the element swapped into p's old slot
        have hqmvd : q = (vecB s false).getD ((vecB s false).length - 1) 0 := by
          rw [← hqlast]; exact hkgd.symm
        have hn : 0 < (vecB s false).length - 1 := by omega
        have hPq : (proc_vec_swapdel s p).procs q =
            { s.procs q with idx := (s.procs p).idx } := by
          rw [P, if_pos ⟨hn, hqmvd⟩]
        show ((proc_vec_swapdel s p).procs q).idx < (proc_vec_swapdel s p).blocked.length ∧
          (proc_vec_swapdel s p).blocked.getD ((proc_vec_swapdel s p).procs q).idx 0 = q
        have hbleq : (proc_vec_swapdel s p).blocked =
            ptr_vec_swapdel (vecB s false) (s.procs p).idx := by
          simpa [vecB] using hbl
        rw [hPq, hbleq]
        dsimp only
        constructor
        · rw [swapdel_length]; omega
        · rw [swapdel_getD (by omega), if_pos rfl, ← hqlast]
          exact hkgd
      · -- q keeps its slot
        have hqmvd : q ≠ (vecB s false).getD ((vecB s false).length - 1) 0 := by
          intro he
          have := @nodup_getD_inj (vecB s false) (h.nd false) (s.procs q).idx
            ((vecB s false).length - 1) hkb (by omega) (by rw [hkgd, he])
          exact hqlast this
        have hPq : (proc_vec_swapdel s p).procs q = s.procs q := by
          rw [P, if_neg (fun hc => hqmvd hc.2)]
        show ((proc_vec_swapdel s p).procs q).idx < (proc_vec_swapdel s p).blocked.length ∧
          (proc_vec_swapdel s p).blocked.getD ((proc_vec_swapdel s p).procs q).idx 0 = q
        have hbleq : (proc_vec_swapdel s p).blocked =
            ptr_vec_swapdel (vecB s false) (s.procs p).idx := by
          simpa [vecB] using hbl
        rw [hPq, hbleq]
        constructor
        · rw [swapdel_length]; omega
        · rw [swapdel_getD (by omega), if_neg hqp]
          exact hkgd

theorem vecB_procs_update (s : RTState) (f : Nat → Proc) (b : Bool) :
    vecB { s with procs := f } b = vecB s b := by cases b <;> rfl

theorem WFx_update_self {s : RTState} {p : Nat} (h : WFx s p) (r : Proc) :
    WFx { s with procs := Function.update s.procs p r } p := by
  have hv : ∀ b, vecB { s with procs := Function.update s.procs p r } b = vecB s b :=
    fun b => vecB_procs_update s _ b
  have hne : ∀ x, x ∈ vecB s true ∨ x ∈ vecB s false → x ≠ p := by
    rintro x (hx | hx) rfl
    · exact h.notin true hx
    · exact h.notin false hx
  constructor
  · intro b j hj
    rw [hv] at hj ⊢
    dsimp only
    have hx : (vecB s b).getD j 0 ∈ vecB s b := getD_mem_of_lt hj
    have hxp : (vecB s b).getD j 0 ≠ p := by
      cases b
      · exact hne _ (Or.inr hx)
      · exact hne _ (Or.inl hx)
    rw [show (Function.update s.procs p r) ((vecB s b).getD j 0) =
        s.procs ((vecB s b).getD j 0) from Function.update_noteq hxp r s.procs]
    exact h.vecs b j hj
  · intro b; rw [hv]; exact h.nd b
  · intro x hr hb; exact h.disj x hr hb
  · intro b; rw [hv]; exact h.notin b
  · intro q hq hblk
    dsimp only at hblk ⊢
    rw [show (Function.update s.procs p r) q = s.procs q from
      Function.update_noteq hq r s.procs] at hblk ⊢
    exact h.blkc q hq hblk

theorem add_proc_WF {s : RTState} {p : Nat} (h : WFx s p)
    (ha : s.procAlive p = true) :
    WF (add_proc_to_state_vec s p) := by
  have V : ∀ b', vecB (add_proc_to_state_vec s p) b' =
      if b' = stateVecClass (s.procs p).state then vecB s b' ++ [p] else vecB s b' :=
    fun b' => add_proc_vecB s p b'
  have P : ∀ x, (add_proc_to_state_vec s p).procs x =
      if x = p
      then { s.procs p with idx := (vecB s (stateVecClass (s.procs p).state)).length }
      else s.procs x := fun x => add_proc_procs s p x
  have A : (add_proc_to_state_vec s p).procAlive = s.procAlive :=
    (add_proc_scalars s p).2.2.2.1
  constructor
  · intro b' j hj
    rw [V] at hj ⊢
    by_cases hbb : b' = stateVecClass (s.procs p).state
    · rw [if_pos hbb] at hj ⊢
      simp only [List.length_append, List.length_singleton] at hj
      by_cases hjl : j < (vecB s b').length
      · rw [getD_append_left hjl]
        have hx : (vecB s b').getD j 0 ∈ vecB s b' := getD_mem_of_lt hjl
        have hxp : (vecB s b').getD j 0 ≠ p := by
          intro he; exact h.notin b' (he ▸ hx)
        rw [P, if_neg hxp]
        obtain ⟨c1, c2, c3⟩ := h.vecs b' j hjl
        refine ⟨c1, c2, by rw [A]; exact c3⟩
      · have hje : j = (vecB s b').length := by omega
        rw [hje, getD_append_last, P, if_pos rfl]
        refine ⟨by rw [hbb], ?_, by rw [A]; exact ha⟩
        show (vecB s (stateVecClass (s.procs p).state)).length = (vecB s b').length
        rw [hbb]
    · rw [if_neg hbb] at hj ⊢
      have hx : (vecB s b').getD j 0 ∈ vecB s b' := getD_mem_of_lt hj
      have hxp : (vecB s b').getD j 0 ≠ p := by
        intro he; exact h.notin b' (he ▸ hx)
      rw [P, if_neg hxp]
      obtain ⟨c1, c2, c3⟩ := h.vecs b' j hj
      exact ⟨c1, c2, by rw [A]; exact c3⟩
  · intro b'
    rw [V]
    by_cases hbb : b' = stateVecClass (s.procs p).state
    · rw [if_pos hbb]
      rw [List.nodup_append]
      refine ⟨h.nd b', List.nodup_singleton p, ?_⟩
      intro a hal har
      rw [List.mem_singleton] at har
      subst har
      exact h.notin b' hal
    · rw [if_neg hbb]; exact h.nd b'
  · intro x hr hb
    have hr2 : x ∈ vecB (add_proc_to_state_vec s p) true := by simpa [vecB] using hr
    have hb2 : x ∈ vecB (add_proc_to_state_vec s p) false := by simpa [vecB] using hb
    rw [V] at hr2 hb2
    have hrT : x ∈ vecB s true ∨ x = p := by
      by_cases hbt : true = stateVecClass (s.procs p).state
      · rw [if_pos hbt] at hr2
        rcases List.mem_append.mp hr2 with hx | hx
        · exact Or.inl hx
        · exact Or.inr (List.mem_singleton.mp hx)
      · rw [if_neg hbt] at hr2; exact Or.inl hr2
    have hbF : x ∈ vecB s false ∨ x = p := by
      by_cases hbt : false = stateVecClass (s.procs p).state
      · rw [if_pos hbt] at hb2
        rcases List.mem_append.mp hb2 with hx | hx
        · exact Or.inl hx
        · exact Or.inr (List.mem_singleton.mp hx)
      · rw [if_neg hbt] at hb2; exact Or.inl hb2
    rcases hrT with hx | hxp
    · rcases hbF with hy | hyp
      · exact h.disj x (by simpa [vecB] using hx) (by simpa [vecB] using hy)
      · exact absurd (hyp ▸ hx) (h.notin true)
    · rcases hbF with hy | _
      · exact absurd (hxp ▸ hy) (h.notin false)
      · -- x = p in both: but then both vector classes equal the proc's class
        by_cases hbt : true = stateVecClass (s.procs p).state
        · have hbf2 : ¬(false = stateVecClass (s.procs p).state) := by
            rw [← hbt]; simp
          rw [if_neg hbf2] at hb2
          exact h.notin false (hxp ▸ hb2)
        · rw [if_neg hbt] at hr2
          exact h.notin true (hxp ▸ hr2)
  · intro q hblk
    have hqs : ((add_proc_to_state_vec s p).procs q).state =
        (if q = p then s.procs p else s.procs q).state := by
      rw [P]; split <;> simp_all
    by_cases hqp : q = p
    · subst hqp
      rw [hqs, if_pos rfl] at hblk
      have hcls : stateVecClass (s.procs q).state = false :=
        (isBlocked_iff_class _).mp hblk
      have hbl : (add_proc_to_state_vec s q).blocked = s.blocked ++ [q] := by
        have := V false
        rw [if_pos hcls.symm] at this
        simpa [vecB] using this
      rw [hbl, P, if_pos rfl]
      constructor
      · show (vecB s (stateVecClass (s.procs q).state)).length < (s.blocked ++ [q]).length
        rw [hcls]
        simp [vecB]
      · show (s.blocked ++ [q]).getD (vecB s (stateVecClass (s.procs q).state)).length 0 = q
        rw [hcls]
        show (s.blocked ++ [q]).getD s.blocked.length 0 = q
        exact getD_append_last s.blocked q
    · rw [hqs, if_neg hqp] at hblk
      obtain ⟨k1, k2⟩ := h.blkc q hqp hblk
      rw [P, if_neg hqp]
      have hbl : (add_proc_to_state_vec s p).blocked = s.blocked ∨
          (add_proc_to_state_vec s p).blocked = s.blocked ++ [p] := by
        have := V false
        by_cases hbt : false = stateVecClass (s.procs p).state
        · rw [if_pos hbt] at this; right; simpa [vecB] using this
        · rw [if_neg hbt] at this; left; simpa [vecB] using this
      rcases hbl with hbl | hbl
      · rw [hbl]; exact ⟨k1, k2⟩
      · rw [hbl]
        constructor
        · simp only [List.length_append, List.length_singleton]; omega
        · rw [getD_append_left k1]; exact k2

/-- Everything proc_state_transition does, relative to the pre-state. -/
structure TransEffect (s s' : RTState) (p : Nat) (dst : ProcState) : Prop where
  wf : WF s'
  pstate : (s'.procs p).state = dst
  pargs : (s'.procs p).args = (s.procs p).args
  pucode : (s'.procs p).ucode = (s.procs p).ucode
  others : ∀ x, x ≠ p → (s'.procs x).state = (s.procs x).state ∧
    (s'.procs x).args = (s.procs x).args ∧ (s'.procs x).ucode = (s.procs x).ucode
  mem : s'.mem = s.mem
  ports : s'.ports = s.ports
  chans : s'.chans = s.chans
  procAlive : s'.procAlive = s.procAlive
  portAlive : s'.portAlive = s.portAlive
  chanAlive : s'.chanAlive = s.chanAlive
  pmem : p ∈ vecB s' (stateVecClass dst)
  pidx : (s'.procs p).idx < (vecB s' (stateVecClass dst)).length
  pgd : (vecB s' (stateVecClass dst)).getD (s'.procs p).idx 0 = p
  pnot : p ∉ vecB s' (!stateVecClass dst)
  memiff : ∀ x, x ≠ p → ∀ b', (x ∈ vecB s' b' ↔ x ∈ vecB s b')

theorem proc_state_transition_spec {s : RTState} {p : Nat} {b : Bool} (h : WF s)
    (hb : stateVecClass (s.procs p).state = b) (hp : p ∈ vecB s b) (dst : ProcState) :
    TransEffect s (proc_state_transition s p dst) p dst := by
  obtain ⟨_, hiv, hgdv, haliv⟩ := mem_placed h hp
  have h1 : WFx (proc_vec_swapdel s p) p := proc_vec_swapdel_WFx h hb hp
  set s1 := proc_vec_swapdel s p with hs1
  set s2 : RTState :=
    { s1 with procs := Function.update s1.procs p { s1.procs p with state := dst } } with hs2
  have h2 : WFx s2 p := WFx_update_self h1 _
  have hs3 : proc_state_transition s p dst = add_proc_to_state_vec s2 p := rfl
  have P1 : ∀ x, s1.procs x =
      if 0 < (vecB s b).length - 1 ∧
          x = (vecB s b).getD ((vecB s b).length - 1) 0
      then { s.procs x with idx := (s.procs p).idx }
      else s.procs x := by
    intro x; rw [hs1, proc_vec_swapdel_procs, hb]
  have V1 : ∀ b', vecB s1 b' =
      if b' = b then ptr_vec_swapdel (vecB s b) (s.procs p).idx else vecB s b' := by
    intro b'
    rw [hs1, proc_vec_swapdel_vecB, hb]
    by_cases hbb : b' = b
    · rw [if_pos hbb, if_pos hbb, hbb]
    · rw [if_neg hbb, if_neg hbb]
  have sc1 := proc_vec_swapdel_scalars s p
  have P2 : ∀ x, s2.procs x =
      if x = p then { s1.procs p with state := dst } else s1.procs x := by
    intro x
    show Function.update s1.procs p { s1.procs p with state := dst } x = _
    by_cases hx : x = p
    · subst hx; rw [Function.update_same, if_pos rfl]
    · rw [Function.update_noteq hx, if_neg hx]
  have V2 : ∀ b', vecB s2 b' = vecB s1 b' := fun b' => vecB_procs_update s1 _ b'
  have hcls2 : stateVecClass (s2.procs p).state = stateVecClass dst := by
    rw [P2, if_pos rfl]
  have halive2 : s2.procAlive p = true := by
    show s1.procAlive p = true
    rw [hs1, sc1.2.2.2.1]
    exact haliv
  have P3 : ∀ x, (proc_state_transition s p dst).procs x =
      if x = p
      then { s2.procs p with idx := (vecB s2 (stateVecClass dst)).length }
      else s2.procs x := by
    intro x
    rw [hs3, add_proc_procs, hcls2]
  have V3 : ∀ b', vecB (proc_state_transition s p dst) b' =
      if b' = stateVecClass dst then vecB s2 b' ++ [p] else vecB s2 b' := by
    intro b'
    rw [hs3, add_proc_vecB, hcls2]
  have sc3 := add_proc_scalars s2 p
  have hps1 : s1.procs p = { s.procs p with idx := (s.procs p).idx } ∨ s1.procs p = s.procs p := by
    rw [P1]
    split
    · left; rfl
    · right; rfl
  have hargs1 : (s1.procs p).args = (s.procs p).args ∧
      (s1.procs p).ucode = (s.procs p).ucode ∧
      (s1.procs p).state = (s.procs p).state := by
    rcases hps1 with hh | hh <;> rw [hh] <;> exact ⟨rfl, rfl, rfl⟩
  constructor
  -- wf
  · rw [hs3]; exact add_proc_WF h2 halive2
  -- pstate
  · rw [P3, if_pos rfl]
    show (s2.procs p).state = dst
    rw [P2, if_pos rfl]
  -- pargs
  · rw [P3, if_pos rfl]
    show (s2.procs p).args = (s.procs p).args
    rw [P2, if_pos rfl]
    exact hargs1.1
  -- pucode
  · rw [P3, if_pos rfl]
    show (s2.procs p).ucode = (s.procs p).ucode
    rw [P2, if_pos rfl]
    exact hargs1.2.1
  -- others
  · intro x hx
    rw [P3, if_neg hx, P2, if_neg hx, P1]
    split
    · exact ⟨rfl, rfl, rfl⟩
    · exact ⟨rfl, rfl, rfl⟩
  -- mem
  · rw [hs3, sc3.1]; show s1.mem = s.mem; rw [hs1, sc1.1]
  -- ports
  · rw [hs3, sc3.2.1]; show s1.ports = s.ports; rw [hs1, sc1.2.1]
  -- chans
  · rw [hs3, sc3.2.2.1]; show s1.chans = s.chans; rw [hs1, sc1.2.2.1]
  -- procAlive
  · rw [hs3, sc3.2.2.2.1]; show s1.procAlive = s.procAlive; rw [hs1, sc1.2.2.2.1]
  -- portAlive
  · rw [hs3, sc3.2.2.2.2.1]; show s1.portAlive = s.portAlive; rw [hs1, sc1.2.2.2.2.1]
  -- chanAlive
  · rw [hs3, sc3.2.2.2.2.2]; show s1.chanAlive = s.chanAlive; rw [hs1, sc1.2.2.2.2.2]
  -- pmem
  · rw [V3, if_pos rfl]
    exact List.mem_append.mpr (Or.inr (List.mem_singleton.mpr rfl))
  -- pidx
  · rw [P3, if_pos rfl, V3, if_pos rfl]
    show (vecB s2 (stateVecClass dst)).length < (vecB s2 (stateVecClass dst) ++ [p]).length
    simp
  -- pgd
  · rw [P3, if_pos rfl, V3, if_pos rfl]
    show (vecB s2 (stateVecClass dst) ++ [p]).getD (vecB s2 (stateVecClass dst)).length 0 = p
    exact getD_append_last _ p
  -- pnot
  · rw [V3, if_neg (by cases stateVecClass dst <;> simp)]
    exact h2.notin _
  -- memiff
  · intro x hx b'
    rw [V3]
    have hiff1 : x ∈ vecB s1 b' ↔ x ∈ vecB s b' := by
      rw [V1]
      by_cases hbb : b' = b
      · rw [if_pos hbb, hbb]
        rw [mem_swapdel_iff (h.nd b) hiv]
        constructor
        · intro hh; exact hh.1
        · intro hh; exact ⟨hh, by rw [hgdv]; exact hx⟩
      · rw [if_neg hbb]
    by_cases hbd : b' = stateVecClass dst
    · rw [if_pos hbd, V2]
      constructor
      · intro hh
        rcases List.mem_append.mp hh with hh | hh
        · exact hiff1.mp hh
        · exact absurd (List.mem_singleton.mp hh) hx
      · intro hh
        exact List.mem_append.mpr (Or.inl (hiff1.mpr hh))
    · rw [if_neg hbd, V2]
      exact hiff1

theorem WF_of_eq {s s' : RTState} (h : WF s)
    (hpr : s'.procs = s.procs) (hr : s'.running = s.running)
    (hbl : s'.blocked = s.blocked) (ha : s'.procAlive = s.procAlive) : WF s' := by
  have hv : ∀ b, vecB s' b = vecB s b := by
    intro b; cases b <;> simp [vecB, hr, hbl]
  constructor
  · intro b j hj
    rw [hv] at hj ⊢
    rw [hpr, ha]
    exact h.vecs b j hj
  · intro b; rw [hv]; exact h.nd b
  · intro x hxr hxb; exact h.disj x (hr ▸ hxr) (hbl ▸ hxb)
  · intro q hblk
    rw [hpr] at hblk ⊢
    rw [hbl]
    exact h.blkc q hblk

theorem attempt_rendezvous_fail {s : RTState} {src dst : Nat}
    (h : ¬((s.procs src).state = .blocked_writing ∧
           (s.procs dst).state = .blocked_reading)) :
    attempt_rendezvous s src dst = (false, s) := by
  unfold attempt_rendezvous
  rw [if_neg h]

theorem attempt_rendezvous_success {s : RTState} {src dst : Nat} (h : WF s)
    (hs : (s.procs src).state = .blocked_writing)
    (hd : (s.procs dst).state = .blocked_reading) :
    (attempt_rendezvous s src dst).1 = true ∧
    WF (attempt_rendezvous s src dst).2 ∧
    (attempt_rendezvous s src dst).2.mem =
      Function.update s.mem ((s.procs dst).args 0) ((s.procs src).args 1) ∧
    ((attempt_rendezvous s src dst).2.procs src).state = .running ∧
    ((attempt_rendezvous s src dst).2.procs dst).state = .running ∧
    src ∈ (attempt_rendezvous s src dst).2.running ∧
    dst ∈ (attempt_rendezvous s src dst).2.running ∧
    src ∉ (attempt_rendezvous s src dst).2.blocked ∧
    dst ∉ (attempt_rendezvous s src dst).2.blocked ∧
    (∀ x, ((attempt_rendezvous s src dst).2.procs x).args = (s.procs x).args) ∧
    (∀ x, ((attempt_rendezvous s src dst).2.procs x).ucode = (s.procs x).ucode) ∧
    (∀ x, x ≠ src → x ≠ dst →
      ((attempt_rendezvous s src dst).2.procs x).state = (s.procs x).state) ∧
    (attempt_rendezvous s src dst).2.ports = s.ports ∧
    (attempt_rendezvous s src dst).2.chans = s.chans ∧
    (attempt_rendezvous s src dst).2.procAlive = s.procAlive ∧
    (attempt_rendezvous s src dst).2.portAlive = s.portAlive ∧
    (attempt_rendezvous s src dst).2.chanAlive = s.chanAlive ∧
    (∀ x, x ≠ src → x ≠ dst → ∀ b',
      (x ∈ vecB (attempt_rendezvous s src dst).2 b' ↔ x ∈ vecB s b')) := by
  have hne : src ≠ dst := by
    intro he; rw [he, hd] at hs; exact absurd hs (by simp)
  set sM : RTState :=
    { s with mem := Function.update s.mem ((s.procs dst).args 0) ((s.procs src).args 1) }
    with hsM
  have hE : attempt_rendezvous s src dst =
      (true, proc_state_transition (proc_state_transition sM src .running) dst .running) := by
    unfold attempt_rendezvous
    rw [if_pos ⟨hs, hd⟩]
  have hwfM : WF sM := WF_of_eq h rfl rfl rfl rfl
  have hsM_procs : sM.procs = s.procs := rfl
  have hsrcM : src ∈ vecB sM false := by
    apply blocked_mem hwfM
    show (s.procs src).state.isBlocked = true
    rw [hs]; rfl
  have T1 := proc_state_transition_spec hwfM
    (show stateVecClass (sM.procs src).state = false by
      show stateVecClass (s.procs src).state = false
      rw [hs]; rfl) hsrcM .running
  set t1 := proc_state_transition sM src .running with ht1
  have hd1 : (t1.procs dst).state = .blocked_reading := by
    rw [(T1.others dst (fun hh => hne hh.symm)).1]
    exact hd
  have hdst1 : dst ∈ vecB t1 false := by
    apply blocked_mem T1.wf
    rw [hd1]; rfl
  have T2 := proc_state_transition_spec T1.wf
    (show stateVecClass (t1.procs dst).state = false by rw [hd1]; rfl) hdst1 .running
  set t2 := proc_state_transition t1 dst .running with ht2
  have hfin : (attempt_rendezvous s src dst).2 = t2 := by rw [hE]
  have hfin1 : (attempt_rendezvous s src dst).1 = true := by rw [hE]
  refine ⟨hfin1, ?_, ?_, ?_, ?_, ?_, ?_, ?_, ?_, ?_, ?_, ?_, ?_, ?_, ?_, ?_, ?_, ?_⟩
  · rw [hfin]; exact T2.wf
  · rw [hfin, T2.mem, T1.mem]
  · rw [hfin, (T2.others src hne).1, T1.pstate]
  · rw [hfin]; exact T2.pstate
  · -- src ∈ t2.running
    rw [hfin]
    have h1 : src ∈ vecB t1 true := T1.pmem
    have h2 : src ∈ vecB t2 true := (T2.memiff src hne true).mpr h1
    simpa [vecB] using h2
  · -- dst ∈ t2.running
    rw [hfin]
    have h2 : dst ∈ vecB t2 true := T2.pmem
    simpa [vecB] using h2
  · -- src ∉ t2.blocked
    rw [hfin]
    have h1 : src ∉ vecB t1 false := by simpa using T1.pnot
    have h2 : src ∉ vecB t2 false := fun hc => h1 ((T2.memiff src hne false).mp hc)
    simpa [vecB] using h2
  · -- dst ∉ t2.blocked
    rw [hfin]
    have h2 : dst ∉ vecB t2 false := by simpa using T2.pnot
    simpa [vecB] using h2
  · -- args
    intro x
    rw [hfin]
    by_cases hxd : x = dst
    · subst hxd
      rw [T2.pargs, (T1.others x (fun hh => hne hh.symm)).2.1]
    · rw [(T2.others x hxd).2.1]
      by_cases hxs : x = src
      · subst hxs; rw [T1.pargs]
      · rw [(T1.others x hxs).2.1]
  · -- ucode
    intro x
    rw [hfin]
    by_cases hxd : x = dst
    · subst hxd
      rw [T2.pucode, (T1.others x (fun hh => hne hh.symm)).2.2]
    · rw [(T2.others x hxd).2.2]
      by_cases hxs : x = src
      · subst hxs; rw [T1.pucode]
      · rw [(T1.others x hxs).2.2]
  · -- state of others
    intro x hxs hxd
    rw [hfin, (T2.others x hxd).1, (T1.others x hxs).1]
  · rw [hfin, T2.ports, T1.ports]
  · rw [hfin, T2.chans, T1.chans]
  · rw [hfin, T2.procAlive, T1.procAlive]
  · rw [hfin, T2.portAlive, T1.portAlive]
  · rw [hfin, T2.chanAlive, T1.chanAlive]
  · intro x hxs hxd b'
    rw [hfin]
    rw [T2.memiff x hxd b', T1.memiff x hxs b']
    show x ∈ (if b' then s.running else s.blocked) ↔ x ∈ vecB s b'
    rfl

theorem attempt_rendezvous_WF {s : RTState} (src dst : Nat) (h : WF s) :
    WF (attempt_rendezvous s src dst).2 := by
  by_cases hc : (s.procs src).state = .blocked_writing ∧
      (s.procs dst).state = .blocked_reading
  · exact (attempt_rendezvous_success h hc.1 hc.2).2.1
  · rw [attempt_rendezvous_fail hc]; exact h

theorem upcall_send_WF {s : RTState} {src c : Nat} (h : WF s)
    (hst : (s.procs src).state = .calling_c) (hmem : src ∈ s.running) :
    WF (upcall_send s src c) := by
  unfold upcall_send
  dsimp only
  have h0 : WF { s with chans := Function.update s.chans c { s.chans c with proc := src } } :=
    WF_of_eq h rfl rfl rfl rfl
  cases hpo : ({ s with chans := Function.update s.chans c { s.chans c with proc := src } }.ports
      ({ s with chans := Function.update s.chans c { s.chans c with proc := src } }.chans c).port).proc with
  | none => exact h0
  | some powner =>
    dsimp only
    have T := proc_state_transition_spec h0
      (show stateVecClass ({ s with chans := Function.update s.chans c { s.chans c with proc := src } }.procs src).state = true by
        show stateVecClass (s.procs src).state = true
        rw [hst]; rfl)
      (show src ∈ vecB { s with chans := Function.update s.chans c { s.chans c with proc := src } } true from hmem)
      .blocked_writing
    have hres := attempt_rendezvous_WF src powner T.wf
    split
    · exact hres
    · exact WF_of_eq hres rfl rfl rfl rfl

theorem upcall_recv_WF {s : RTState} {dst pt : Nat} (r : Nat) (h : WF s)
    (hst : (s.procs dst).state = .calling_c) (hmem : dst ∈ s.running) :
    WF (upcall_recv s dst pt r) := by
  unfold upcall_recv
  dsimp only
  have T := proc_state_transition_spec h
    (show stateVecClass (s.procs dst).state = true by rw [hst]; rfl)
    (show dst ∈ vecB s true from hmem)
    .blocked_reading
  split
  · -- the writer vector is non-empty
    have hres := attempt_rendezvous_WF
      ((proc_state_transition s dst .blocked_reading).chans
        (((proc_state_transition s dst .blocked_reading).ports pt).writers.getD
          (r % ((proc_state_transition s dst .blocked_reading).ports pt).writers.length) 0)).proc
      dst T.wf
    split
    · -- rendezvous succeeded: swap-delete the chan and clear its queued flag
      refine WF_of_eq hres ?_ ?_ ?_ ?_
      · show (chan_vec_swapdel _ pt _).procs = _
        exact (chan_vec_swapdel_scalars _ pt _).1
      · show (chan_vec_swapdel _ pt _).running = _
        exact (chan_vec_swapdel_scalars _ pt _).2.1
      · show (chan_vec_swapdel _ pt _).blocked = _
        exact (chan_vec_swapdel_scalars _ pt _).2.2.1
      · show (chan_vec_swapdel _ pt _).procAlive = _
        exact (chan_vec_swapdel_scalars _ pt _).2.2.2.2.1
    · exact hres
  · exact T.wf

theorem WF_update_runclass {s : RTState} {x : Nat} (h : WF s) (r : Proc)
    (hold : stateVecClass (s.procs x).state = true)
    (hnew : stateVecClass r.state = true)
    (hidx : r.idx = (s.procs x).idx) :
    WF { s with procs := Function.update s.procs x r } := by
  have hv : ∀ b, vecB { s with procs := Function.update s.procs x r } b = vecB s b :=
    fun b => vecB_procs_update s _ b
  constructor
  · intro b j hj
    rw [hv] at hj ⊢
    dsimp only
    by_cases hy : (vecB s b).getD j 0 = x
    · obtain ⟨c1, c2, c3⟩ := h.vecs b j hj
      rw [hy] at c1 c2 c3
      have hbt : b = true := by rw [← c1, hold]
      rw [hy, Function.update_same]
      refine ⟨by rw [hnew, hbt], by rw [hidx, c2], c3⟩
    · rw [Function.update_noteq hy]
      exact h.vecs b j hj
  · intro b; rw [hv]; exact h.nd b
  · intro y hyr hyb; exact h.disj y hyr hyb
  · intro q hblk
    dsimp only at hblk ⊢
    by_cases hq : q = x
    · subst hq
      rw [Function.update_same] at hblk
      rw [isBlocked_iff_class] at hblk
      rw [hblk] at hnew
      exact absurd hnew (by simp)
    · rw [Function.update_noteq hq] at hblk ⊢
      exact h.blkc q hblk

theorem spawn_WF {s : RTState} {f : Nat} (h : WF s) (hf : s.procAlive f = false) :
    WF { s with procs := Function.update s.procs f {},
                procAlive := Function.update s.procAlive f true } := by
  have hv : ∀ b, vecB { s with procs := Function.update s.procs f {}, procAlive := Function.update s.procAlive f true } b = vecB s b := by
    intro b; cases b <;> rfl
  constructor
  · intro b j hj
    rw [hv] at hj ⊢
    dsimp only
    obtain ⟨c1, c2, c3⟩ := h.vecs b j hj
    have hy : (vecB s b).getD j 0 ≠ f := by
      intro he; rw [he] at c3; rw [c3] at hf; exact absurd hf (by simp)
    rw [Function.update_noteq hy, Function.update_noteq hy]
    exact ⟨c1, c2, c3⟩
  · intro b; rw [hv]; exact h.nd b
  · intro y hyr hyb; exact h.disj y hyr hyb
  · intro q hblk
    dsimp only at hblk ⊢
    by_cases hq : q = f
    · subst hq
      rw [Function.update_same] at hblk
      exact absurd hblk (by simp [ProcState.isBlocked])
    · rw [Function.update_noteq hq] at hblk ⊢
      exact h.blkc q hblk

theorem register_WF {s : RTState} {p : Nat} (h : WF s) (ha : s.procAlive p = true)
    (hr : p ∉ s.running) (hb : p ∉ s.blocked) :
    WF (add_proc_to_state_vec s p) := by
  refine add_proc_WF ?_ ha
  constructor
  · exact h.vecs
  · exact h.nd
  · exact h.disj
  · intro b; cases b
    · exact hb
    · exact hr
  · intro q _ hq; exact h.blkc q hq

theorem exit_proc_WF {s : RTState} {q : Nat} (h : WF s) (hq : q ∈ s.running) :
    WF (exit_proc s q) := by
  have hqv : q ∈ vecB s true := hq
  obtain ⟨hcls, _, _, _⟩ := mem_placed h hqv
  have h1 : WFx (proc_vec_swapdel s q) q := proc_vec_swapdel_WFx h hcls hqv
  have hst1 : ((proc_vec_swapdel s q).procs q).state = (s.procs q).state := by
    rw [proc_vec_swapdel_procs]
    split
    · rfl
    · rfl
  have hv : ∀ b, vecB (exit_proc s q) b = vecB (proc_vec_swapdel s q) b := by
    intro b; cases b <;> rfl
  constructor
  · intro b j hj
    rw [hv] at hj ⊢
    obtain ⟨c1, c2, c3⟩ := h1.vecs b j hj
    have hy : (vecB (proc_vec_swapdel s q) b).getD j 0 ≠ q := by
      intro he
      exact h1.notin b (mem_of_getD hj he)
    refine ⟨c1, c2, ?_⟩
    show ((exit_proc s q).procAlive) ((vecB (proc_vec_swapdel s q) b).getD j 0) = true
    show (Function.update (proc_vec_swapdel s q).procAlive q false)
      ((vecB (proc_vec_swapdel s q) b).getD j 0) = true
    rw [Function.update_noteq hy]
    exact c3
  · intro b; rw [hv]; exact h1.nd b
  · intro y hyr hyb
    exact h1.disj y hyr hyb
  · intro p hblk
    have hblk2 : ((proc_vec_swapdel s q).procs p).state.isBlocked = true := hblk
    by_cases hpq : p = q
    · subst hpq
      rw [hst1] at hblk2
      rw [isBlocked_iff_class] at hblk2
      rw [hblk2] at hcls
      exact absurd hcls (by simp)
    · exact h1.blkc p hpq hblk2

theorem WF_update_keep {s : RTState} {x : Nat} (h : WF s) (r : Proc)
    (hstate : r.state = (s.procs x).state) (hidx : r.idx = (s.procs x).idx) :
    WF { s with procs := Function.update s.procs x r } := by
  have hv : ∀ b, vecB { s with procs := Function.update s.procs x r } b = vecB s b :=
    fun b => vecB_procs_update s _ b
  constructor
  · intro b j hj
    rw [hv] at hj ⊢
    dsimp only
    by_cases hy : (vecB s b).getD j 0 = x
    · obtain ⟨c1, c2, c3⟩ := h.vecs b j hj
      rw [hy, Function.update_same]
      rw [hy] at c1 c2 c3
      exact ⟨by rw [hstate]; exact c1, by rw [hidx]; exact c2, c3⟩
    · rw [Function.update_noteq hy]
      exact h.vecs b j hj
  · intro b; rw [hv]; exact h.nd b
  · intro y hyr hyb; exact h.disj y hyr hyb
  · intro p hblk
    dsimp only at hblk ⊢
    by_cases hp : p = x
    · subst hp
      rw [Function.update_same] at hblk ⊢
      rw [hstate] at hblk
      rw [hidx]
      exact h.blkc p hblk
    · rw [Function.update_noteq hp] at hblk ⊢
      exact h.blkc p hblk

theorem WF_ucode_zero {s : RTState} (q : Nat) (h : WF s) :
    WF { s with procs := Function.update s.procs q { s.procs q with ucode := 0 } } :=
  WF_update_keep h _ rfl rfl

theorem upcall_check_expr_WF {s : RTState} {q : Nat} (i : Nat) (h : WF s)
    (hst : (s.procs q).state = .calling_c) : WF (upcall_check_expr s q i) := by
  unfold upcall_check_expr
  split
  · exact WF_update_runclass h _ (by rw [hst]; rfl) rfl rfl
  · exact h

theorem handle_upcall_WF {s : RTState} {q fresh : Nat} (r : Nat) (h : WF s)
    (hst : (s.procs q).state = .calling_c) (hmem : q ∈ s.running)
    (hfresh : s.procAlive fresh = false)
    (hsched : (s.procs q).ucode = 12 →
      s.procAlive ((s.procs q).args 0) = true ∧
      (s.procs q).args 0 ∉ s.running ∧ (s.procs q).args 0 ∉ s.blocked) :
    WF (handle_upcall s q fresh r) := by
  unfold handle_upcall
  dsimp only
  split
  · exact WF_ucode_zero q h
  · exact WF_ucode_zero q h
  · -- spawn
    have h2 : WF { s with procs := Function.update s.procs fresh {}, procAlive := Function.update s.procAlive fresh true } := spawn_WF h hfresh
    exact WF_ucode_zero q (WF_of_eq h2 rfl rfl rfl rfl)
  · -- check_expr
    exact WF_ucode_zero q (upcall_check_expr_WF _ h hst)
  · -- malloc
    exact WF_ucode_zero q (WF_of_eq h rfl rfl rfl rfl)
  · -- free
    exact WF_ucode_zero q h
  · -- new_port
    exact WF_ucode_zero q (WF_of_eq h rfl rfl rfl rfl)
  · -- del_port
    exact WF_ucode_zero q (WF_of_eq h rfl rfl rfl rfl)
  · -- new_chan
    exact WF_ucode_zero q (WF_of_eq h rfl rfl rfl rfl)
  · -- del_chan
    exact WF_ucode_zero q (WF_of_eq h rfl rfl rfl rfl)
  · -- send
    exact WF_ucode_zero q (upcall_send_WF h hst hmem)
  · -- recv
    exact WF_ucode_zero q (upcall_recv_WF r h hst hmem)
  · -- sched
    next heq =>
    obtain ⟨ha, hr2, hb2⟩ := hsched heq
    exact WF_ucode_zero q (register_WF h ha hr2 hb2)
  · -- unknown upcall code
    exact WF_ucode_zero q h

theorem driver_dispatch_WF {s : RTState} {q fresh : Nat} (r : Nat) (h : WF s)
    (hq : q ∈ s.running) (hfresh : s.procAlive fresh = false)
    (hsched : (s.procs q).state = .calling_c → (s.procs q).ucode = 12 →
      s.procAlive ((s.procs q).args 0) = true ∧
      (s.procs q).args 0 ∉ s.running ∧ (s.procs q).args 0 ∉ s.blocked) :
    WF (driver_dispatch s q fresh r) := by
  unfold driver_dispatch
  split
  · exact h
  · -- calling_c
    next hst =>
    have h1 : WF (handle_upcall s q fresh r) :=
      handle_upcall_WF r h hst hq hfresh (hsched hst)
    dsimp only
    split
    · next hst2 =>
      exact WF_update_runclass h1 _ (by rw [hst2]; rfl) rfl rfl
    · exact h1
  · -- exiting
    exact exit_proc_WF h hq
  · exact h

theorem glue_return_WF {s : RTState} {q : Nat} (h : WF s) (hq : q ∈ s.running)
    {t : ProcState} (ht : stateVecClass t = true) (ar : Fin 8 → Nat) (uc : Nat)
    (nm : Nat → Nat) :
    WF (glue_return s q t ar uc nm) := by
  have hold : stateVecClass (s.procs q).state = true :=
    (mem_placed h (show q ∈ vecB s true from hq)).1
  have h1 : WF { s with procs := Function.update s.procs q { s.procs q with state := t, args := ar, ucode := uc } } :=
    WF_update_runclass h _ hold ht rfl
  exact WF_of_eq h1 rfl rfl rfl rfl

theorem initState_WF : WF initState := by
  constructor
  · intro b j hj
    exact absurd hj (by cases b <;> simp [initState, vecB])
  · intro b; cases b <;> simp [initState, vecB]
  · intro x hx
    simp [initState] at hx
  · intro p hp
    exact Bool.noConfusion hp

theorem Step_WF {s s' : RTState} (h : WF s) (hs : Step s s') : WF s' := by
  cases hs with
  | new_proc fresh hf => exact spawn_WF h hf
  | register p ha hst hr hb => exact register_WF h ha hr hb
  | iter q t ar uc nm fresh r hq ht hfresh hsched =>
    have hg : WF (glue_return s q t ar uc nm) := glue_return_WF h hq ht ar uc nm
    refine driver_dispatch_WF r hg ?_ ?_ ?_
    · show q ∈ s.running
      exact hq
    · show s.procAlive fresh = false
      exact hfresh.1
    · intro hcc hucode
      have hqt : ((glue_return s q t ar uc nm).procs q).state = t := by
        show (Function.update s.procs q { s.procs q with state := t, args := ar, ucode := uc } q).state = t
        rw [Function.update_same]
      have hqa : ((glue_return s q t ar uc nm).procs q).args = ar := by
        show (Function.update s.procs q { s.procs q with state := t, args := ar, ucode := uc } q).args = ar
        rw [Function.update_same]
      have hqu : ((glue_return s q t ar uc nm).procs q).ucode = uc := by
        show (Function.update s.procs q { s.procs q with state := t, args := ar, ucode := uc } q).ucode = uc
        rw [Function.update_same]
      rw [hqt] at hcc
      rw [hqu] at hucode
      obtain ⟨c1, c2, c3, c4⟩ := hsched hucode hcc
      rw [hqa]
      exact ⟨c1, c3, c4⟩

theorem Reachable_WF {s : RTState} (h : Reachable s) : WF s := by
  unfold Reachable at h
  induction h with
  | refl => exact initState_WF
  | tail hab hbc ih => exact Step_WF ih hbc

/-- n_live_procs from rust.c. -/
def n_live_procs (s : RTState) : Nat :=
  s.running.length + s.blocked.length

/-! ### Claims -/

/-- Claim C7: for every send upcall on a channel whose port has no owning
receiver proc, the runtime only logs and returns: apart from setting
chan.proc to the sender, the sender's state stays CallingC (it is not
blocked), both scheduler vectors are unchanged, and the channel is not
queued on any writer vector. -/
theorem C7_dead_send (s : RTState) (src c : Nat)
    (hpo : (s.ports ((s.chans c).port)).proc = none)
    (hst : (s.procs src).state = .calling_c) :
    upcall_send s src c =
      { s with chans := Function.update s.chans c { s.chans c with proc := src } } ∧
    ((upcall_send s src c).procs src).state = .calling_c ∧
    (upcall_send s src c).running = s.running ∧
    (upcall_send s src c).blocked = s.blocked ∧
    ((upcall_send s src c).chans c).queued = (s.chans c).queued ∧
    ((upcall_send s src c).chans c).proc = src ∧
    (∀ pt, ((upcall_send s src c).ports pt).writers = (s.ports pt).writers) := by
  have hsc : ({ s with chans := Function.update s.chans c { s.chans c with proc := src } }.ports ({ s with chans := Function.update s.chans c { s.chans c with proc := src } }.chans c).port).proc = none := by
    show (s.ports ((Function.update s.chans c { s.chans c with proc := src } c).port)).proc = none
    rw [Function.update_same]
    exact hpo
  have hE : upcall_send s src c =
      { s with chans := Function.update s.chans c { s.chans c with proc := src } } := by
    unfold upcall_send
    dsimp only
    rw [hsc]
  refine ⟨hE, ?_, ?_, ?_, ?_, ?_, ?_⟩
  · rw [hE]; exact hst
  · rw [hE]
  · rw [hE]
  · rw [hE]
    show (Function.update s.chans c { s.chans c with proc := src } c).queued = _
    rw [Function.update_same]
  · rw [hE]
    show (Function.update s.chans c { s.chans c with proc := src } c).proc = src
    rw [Function.update_same]
  · intro pt; rw [hE]

/-- Claim C8: whenever at least one proc is live, if the Running vector is
non-empty then sched returns an element of the Running vector (with exactly
one runnable proc it always returns that proc); if the Running vector is
empty while the Blocked vector is non-empty (deadlock), the program
terminates with a nonzero exit code after a diagnostic. -/
theorem C8_sched :
    (∀ s r, 0 < n_live_procs s → 0 < s.running.length →
      ∃ p, sched s r = Sum.inl p ∧ p ∈ s.running) ∧
    (∀ s r p, s.running = [p] → sched s r = Sum.inl p) ∧
    (∀ s r, 0 < n_live_procs s → s.running = [] → s.blocked ≠ [] →
      ∃ code, sched s r = Sum.inr code ∧ code ≠ 0) := by
  refine ⟨?_, ?_, ?_⟩
  · intro s r _ hr
    refine ⟨s.running.getD (r % s.running.length) 0, ?_, ?_⟩
    · unfold sched; rw [if_pos hr]
    · exact getD_mem_of_lt (Nat.mod_lt r hr)
  · intro s r p hone
    unfold sched
    rw [hone]
    rw [if_pos (by simp)]
    simp [Nat.mod_one]
  · intro s r _ hempty _
    refine ⟨1, ?_, by simp⟩
    unfold sched
    rw [if_neg (by rw [hempty]; simp)]

theorem pv_push_inv {v : PV} (h : pv_inv v) : pv_inv (pv_push v) := by
  obtain ⟨h1, h2, k, hk⟩ := h
  unfold pv_push
  unfold pv_inv INIT_PTR_VEC_SZ at *
  split
  · next he =>
    refine ⟨by dsimp only; omega, by dsimp only; omega, k + 1, ?_⟩
    dsimp only
    rw [hk, pow_succ]
  · next he =>
    exact ⟨by dsimp only; omega, h2, k, hk⟩

theorem pv_trim_inv {v : PV} {n : Nat} {w : PV} (h : pv_inv v)
    (ht : pv_trim v n = some w) : pv_inv w := by
  obtain ⟨h1, h2, k, hk⟩ := h
  unfold pv_trim at ht
  split at ht
  · next hc =>
    split at ht
    · next hle =>
      cases ht
      refine ⟨hle, hc.2, k - 1, ?_⟩
      have hk1 : 1 ≤ k := by
        by_contra hk0
        have : k = 0 := by omega
        rw [this] at hk
        unfold INIT_PTR_VEC_SZ at h2
        omega
      show v.alloc / 2 = 2 ^ (k - 1)
      rw [hk]
      rcases Nat.exists_eq_add_of_le hk1 with ⟨m, hm⟩
      rw [hm]
      rw [show 1 + m - 1 = m by omega]
      rw [show (1 : Nat) + m = m + 1 by omega, pow_succ]
      omega
    · exact absurd ht (by simp)
  · next hc =>
    cases ht
    exact ⟨h1, h2, k, hk⟩

theorem pv_run_inv : ∀ ops v w, pv_inv v → pv_run ops v = some w → pv_inv w := by
  intro ops
  induction ops with
  | nil =>
    intro v w h he
    unfold pv_run at he
    cases he
    exact h
  | cons op ops ih =>
    intro v w h he
    cases op with
    | push =>
      unfold pv_run at he
      exact ih _ _ (pv_push_inv h) he
    | trim n =>
      unfold pv_run at he
      cases htr : pv_trim v n with
      | none => rw [htr] at he; exact absurd he (by simp)
      | some u =>
        rw [htr] at he
        exact ih _ _ (pv_trim_inv h htr) he

theorem pv_push_doubles {v : PV} (h : pv_inv v) :
    (pv_push v).alloc = 2 * v.alloc ↔ v.init = v.alloc := by
  obtain ⟨h1, h2, _⟩ := h
  unfold pv_push
  unfold INIT_PTR_VEC_SZ at h2
  split
  · next he => exact iff_of_true (by dsimp only; omega) he
  · next he =>
    refine iff_of_false ?_ he
    dsimp only
    omega

theorem pv_trim_halves {v : PV} {n : Nat} {w : PV}
    (ht : pv_trim v n = some w) :
    w.alloc = (if n ≤ v.alloc / 4 ∧ INIT_PTR_VEC_SZ ≤ v.alloc / 2
               then v.alloc / 2 else v.alloc) ∧
    w.init = v.init := by
  unfold pv_trim at ht
  split at ht
  · next hc =>
    split at ht
    · cases ht
      rw [if_pos hc]
      exact ⟨rfl, rfl⟩
    · exact absurd ht (by simp)
  · next hc =>
    cases ht
    rw [if_neg hc]
    exact ⟨rfl, rfl⟩

/-- Claim C9: every sequence of push and trim operations preserves
`init ≤ alloc`, `alloc ≥ 8` and `alloc` a power of two (`0 ≤ init` is
trivial for `Nat`); push doubles the capacity exactly when `init = alloc`;
trim halves the capacity exactly when the supplied live count is at most
`alloc/4` and `alloc/2 ≥ 8`; pushing a 9th element onto a capacity-8 vector
yields capacity 16, and trimming with live count 2 then yields capacity 8,
never below 8. -/
theorem C9_ptr_vec_policy :
    (∀ ops v w, pv_inv v → pv_run ops v = some w → pv_inv w) ∧
    (∀ v, pv_inv v → ((pv_push v).alloc = 2 * v.alloc ↔ v.init = v.alloc)) ∧
    (∀ v n w, pv_trim v n = some w →
      w.alloc = (if n ≤ v.alloc / 4 ∧ INIT_PTR_VEC_SZ ≤ v.alloc / 2
                 then v.alloc / 2 else v.alloc)) ∧
    pv_run (List.replicate 9 PVOp.push) pv_new = some ⟨16, 9⟩ ∧
    pv_trim ⟨16, 2⟩ 2 = some ⟨8, 2⟩ ∧
    pv_trim ⟨8, 2⟩ 2 = some ⟨8, 2⟩ :=
  ⟨pv_run_inv,
   fun v h => pv_push_doubles h,
   fun v n w ht => (pv_trim_halves ht).1,
   by decide, by decide, by decide⟩

/-- Claim C9 witness: the invariant machinery of `C9_ptr_vec_policy`
evaluated at the fresh vector and one push. -/
theorem C9_witness :
    pv_inv pv_new ∧ pv_run [PVOp.push] pv_new = some ⟨8, 1⟩ ∧ pv_inv ⟨8, 1⟩ :=
  ⟨⟨by decide, by decide, 3, by decide⟩, by decide,
   C9_ptr_vec_policy.1 [PVOp.push] pv_new ⟨8, 1⟩
     ⟨by decide, by decide, 3, by decide⟩ (by decide)⟩

theorem new_proc_top_mod (base : Nat) : new_proc_top base % 16 = 0 := by
  unfold new_proc_top align16
  omega

theorem new_proc_top_ge (base : Nat) : 65513 ≤ new_proc_top base := by
  unfold new_proc_top align16 init_stk_bytes wordBytes
  omega

/-- Claim C4 counterexample: with `main_code = 4` seeded from a zero memory
at `base = 0`, the third word below the aligned top (the slot the claim
calls a zero spacer for the fake return PC) holds `main_code`, not zero, and
the saved sp is 8 (mod 16), not 16-byte aligned. -/
theorem C4_cex :
    new_proc_mem (fun _ => 0) 0 100 4 (new_proc_top 0 - 2 * wordBytes) = 4 ∧
    (4 : Nat) ≠ 0 ∧
    new_proc_sp 0 % 16 = 8 ∧
    (8 : Nat) ≠ 0 := by decide

/-- Claim C4 (amended): for every proc built by new_proc, the top of the
stack is aligned down to a 16-byte boundary and then seeded, from the top
word downward, with: the proc pointer, a zero spacer (fake out-pointer),
prog.main_code (a duplicate of the activation PC, standing where the
comment's fake return PC is), prog.main_code as the activation PC, and
n_callee_saves (≥ 4) zeroed callee-save words; the saved sp is the aligned
top minus (3 + n_callee_saves) words (so, on this 64-bit model, ≡ 8 mod 16
rather than 16-byte aligned). -/
theorem C4_initial_frame (m : Nat → Nat) (base procPtr mainCode : Nat) :
    new_proc_top base % 16 = 0 ∧
    new_proc_mem m base procPtr mainCode (new_proc_top base) = procPtr ∧
    new_proc_mem m base procPtr mainCode (new_proc_top base - 1 * wordBytes) = 0 ∧
    new_proc_mem m base procPtr mainCode (new_proc_top base - 2 * wordBytes) = mainCode ∧
    new_proc_mem m base procPtr mainCode (new_proc_top base - 3 * wordBytes) = mainCode ∧
    (∀ j, 4 ≤ j → j ≤ 3 + n_callee_saves →
      new_proc_mem m base procPtr mainCode (new_proc_top base - j * wordBytes) = 0) ∧
    new_proc_sp base = new_proc_top base - (3 + n_callee_saves) * wordBytes ∧
    4 ≤ n_callee_saves ∧
    new_proc_sp base % 16 = 8 := by
  have hge : 65513 ≤ new_proc_top base := new_proc_top_ge base
  have hmod : new_proc_top base % 16 = 0 := new_proc_top_mod base
  unfold new_proc_mem seed_frame n_callee_saves wordBytes
  refine ⟨hmod, ?_, ?_, ?_, ?_, ?_, rfl, by omega, ?_⟩
  · rw [Function.update_noteq (by omega), Function.update_noteq (by omega),
      Function.update_noteq (by omega), Function.update_noteq (by omega),
      Function.update_noteq (by omega), Function.update_noteq (by omega),
      Function.update_noteq (by omega), Function.update_same]
  · rw [Function.update_noteq (by omega), Function.update_noteq (by omega),
      Function.update_noteq (by omega), Function.update_noteq (by omega),
      Function.update_noteq (by omega), Function.update_noteq (by omega),
      Function.update_same]
  · rw [Function.update_noteq (by omega), Function.update_noteq (by omega),
      Function.update_noteq (by omega), Function.update_noteq (by omega),
      Function.update_noteq (by omega), Function.update_same]
  · rw [Function.update_noteq (by omega), Function.update_noteq (by omega),
      Function.update_noteq (by omega), Function.update_noteq (by omega),
      Function.update_same]
  · intro j h4 h7
    interval_cases j
    · rw [Function.update_noteq (by omega), Function.update_noteq (by omega),
        Function.update_noteq (by omega), Function.update_same]
    · rw [Function.update_noteq (by omega), Function.update_noteq (by omega),
        Function.update_same]
    · rw [Function.update_noteq (by omega), Function.update_same]
    · rw [Function.update_same]
  · unfold new_proc_sp n_callee_saves wordBytes
    omega

/-- Claim C10: `del_all_procs` uses `v->data[v->init--]` (post-decrement),
so for a vector with live count `init = n > 0` it reads and frees the slots
`n, n-1, ..., 1`: it reads slot `n` (one past the live range `0..n-1`) and
never touches slot 0.  Evaluated at the failing inputs `init = 1` and
`init = 3`. -/
theorem C10_del_all_procs :
    del_all_procs_accessed 1 = [1] ∧
    (0 : Nat) ∉ del_all_procs_accessed 1 ∧
    (1 : Nat) ∈ del_all_procs_accessed 1 ∧
    del_all_procs_accessed 3 = [3, 2, 1] ∧
    (0 : Nat) ∉ del_all_procs_accessed 3 ∧
    (3 : Nat) ∈ del_all_procs_accessed 3 := by decide

/-- A runtime state with one port (handle 0, owned by proc 5) holding one
queued writer chan (handle 7, sender proc 3, idx 0). -/
def c6state : RTState :=
  { ports := fun pt => if pt = 0 then { proc := some 5, writers := [7] } else {},
    chans := fun ch => if ch = 7 then { port := 0, proc := 3, queued := true, idx := 0 } else {},
    chanAlive := fun ch => decide (ch = 7) }

/-- Claim C6: `upcall_del_chan` frees the channel without dequeuing it: on a
state whose port 0 holds queued chan 7, after `del_chan` the chan is freed
(`chanAlive = false`) yet still sits in port 0's writer vector with its
queued flag set — the queued-channel invariant is violated, the writer
vector holds a dangling pointer, and the claim's required dequeue never
happens. -/
theorem C6_del_chan_leaves_queued :
    (c6state.chans 7).queued = true ∧
    7 ∈ (c6state.ports 0).writers ∧
    (upcall_del_chan c6state 7).chanAlive 7 = false ∧
    7 ∈ ((upcall_del_chan c6state 7).ports 0).writers ∧
    ((upcall_del_chan c6state 7).chans 7).queued = true := by decide

/-- A state created by the runtime for the C7 witness: proc 2 is the
registered sender in mid-upcall; chan 0 and port 0 hold the zeroed defaults,
so the chan's port has no owning receiver. -/
def c7state : RTState :=
  { procs := fun p => if p = 2 then { state := .calling_c } else {},
    running := [2],
    procAlive := fun p => decide (p = 2) }

/-- Claim C7 witness: the dead-send theorem evaluated at `c7state`. -/
theorem C7_witness :
    ((upcall_send c7state 2 0).procs 2).state = .calling_c ∧
    (upcall_send c7state 2 0).running = c7state.running ∧
    (upcall_send c7state 2 0).blocked = c7state.blocked ∧
    ((upcall_send c7state 2 0).chans 0).queued = (c7state.chans 0).queued ∧
    ((upcall_send c7state 2 0).chans 0).proc = 2 :=
  let h := C7_dead_send c7state 2 0 (by decide) (by decide)
  ⟨h.2.1, h.2.2.1, h.2.2.2.1, h.2.2.2.2.1, h.2.2.2.2.2.1⟩

/-- Claim C8 witness: `C8_sched` evaluated at a singleton running vector and
at a deadlocked runtime. -/
theorem C8_witness :
    (∃ p, sched { running := [3] } 0 = Sum.inl p ∧
      p ∈ ({ running := [3] } : RTState).running) ∧
    sched { running := [3] } 0 = Sum.inl 3 ∧
    (∃ code, sched { blocked := [4] } 0 = Sum.inr code ∧ code ≠ 0) :=
  ⟨C8_sched.1 { running := [3] } 0 (by decide) (by decide),
   C8_sched.2.1 { running := [3] } 0 3 rfl,
   C8_sched.2.2 { blocked := [4] } 0 (by decide) rfl (by decide)⟩

/-- Claim C3 exactly as stated: in every state reachable by the driver loop,
every live (allocated, not freed) proc appears in the scheduler vector
determined by its state, in that vector only, at its recorded index. -/
def C3_claim : Prop :=
  ∀ s, Reachable s → ∀ p, s.procAlive p = true →
    p ∈ vecB s (stateVecClass (s.procs p).state) ∧
    p ∉ vecB s (!stateVecClass (s.procs p).state) ∧
    (vecB s (stateVecClass (s.procs p).state)).getD (s.procs p).idx 0 = p

/-- The state after the root proc (handle 0) was created. -/
def c3s1 : RTState :=
  { initState with procs := Function.update initState.procs 0 {},
                   procAlive := Function.update initState.procAlive 0 true }

/-- ... and registered into the running vector. -/
def c3s2 : RTState := add_proc_to_state_vec c3s1 0

/-- Upcall arguments of the root's spawn upcall: out-slot address 0, prog
handle 0. -/
def c3args : Fin 8 → Nat := fun _ => 0

/-- ... and after one driver iteration in which the root issued a spawn
upcall (code 2), creating proc 1 at the fresh address 1. -/
def c3s3 : RTState :=
  driver_dispatch (glue_return c3s2 0 .calling_c c3args 2 c3s2.mem) 0 1 0

theorem c3s3_reachable : Reachable c3s3 := by
  have h1 : Step initState c3s1 := Step.new_proc initState 0 rfl
  have h2 : Step c3s1 c3s2 :=
    Step.register c3s1 0 (by decide) (by decide) (by decide) (by decide)
  have h3 : Step c3s2 c3s3 :=
    Step.iter c3s2 0 .calling_c c3args 2 c3s2.mem 1 0 (by decide) rfl
      ⟨by decide, by decide, by decide⟩
      (by intro hu; exact absurd hu (by decide))
  exact Relation.ReflTransGen.head h1
    (Relation.ReflTransGen.head h2 (Relation.ReflTransGen.single h3))

/-- Claim C3 counterexample: in the reachable state `c3s3`, proc 1 — created
by the spawn upcall and still waiting for its sched-upcall registration — is
live but in neither scheduler vector, so the claim as stated is false. -/
theorem C3_cex : ¬ C3_claim := by
  intro h
  obtain ⟨hmem, _, _⟩ := h c3s3 c3s3_reachable 1 (by decide)
  exact absurd hmem (by decide)

/-- Claim C3 (amended): in every state reachable by the driver loop, the two
scheduler vectors are duplicate-free and disjoint, every element is a live
proc whose state matches its vector and whose `idx` is its position, and
every proc present in a vector is in the vector determined by its state, in
that vector only, at its recorded index.  (A proc freshly created by the
spawn upcall is live but in neither vector until it is registered by the
sched upcall, which is what falsifies the claim as stated.) -/
theorem C3_vec_invariant (s : RTState) (h : Reachable s) :
    (∀ b, vecOK s b) ∧
    (∀ b, (vecB s b).Nodup) ∧
    (∀ x, x ∈ s.running → x ∉ s.blocked) ∧
    (∀ p, p ∈ s.running ∨ p ∈ s.blocked →
      s.procAlive p = true ∧
      p ∈ vecB s (stateVecClass (s.procs p).state) ∧
      p ∉ vecB s (!stateVecClass (s.procs p).state) ∧
      (vecB s (stateVecClass (s.procs p).state)).getD (s.procs p).idx 0 = p) := by
  have hw := Reachable_WF h
  refine ⟨hw.vecs, hw.nd, hw.disj, ?_⟩
  intro p hp
  have hp2 : p ∈ vecB s true ∨ p ∈ vecB s false := hp
  rcases hp2 with hp2 | hp2
  · obtain ⟨hc, hi, hg, ha⟩ := mem_placed hw hp2
    rw [hc]
    exact ⟨ha, hp2, disjB hw hp2, hg⟩
  · obtain ⟨hc, hi, hg, ha⟩ := mem_placed hw hp2
    rw [hc]
    exact ⟨ha, hp2, disjB hw hp2, hg⟩

/-- Claim C3 witness: the amended invariant at the initial runtime state. -/
theorem C3_witness :
    (∀ b, vecOK initState b) ∧
    (∀ b, (vecB initState b).Nodup) ∧
    (∀ x, x ∈ initState.running → x ∉ initState.blocked) ∧
    (∀ p, p ∈ initState.running ∨ p ∈ initState.blocked →
      initState.procAlive p = true ∧
      p ∈ vecB initState (stateVecClass (initState.procs p).state) ∧
      p ∉ vecB initState (!stateVecClass (initState.procs p).state) ∧
      (vecB initState (stateVecClass (initState.procs p).state)).getD
        (initState.procs p).idx 0 = p) :=
  C3_vec_invariant initState Relation.ReflTransGen.refl

/-- Claim C2: attempt_rendezvous(src, dst): if src.state is not
BlockedWriting or dst.state is not BlockedReading, it returns false and
leaves all proc and runtime state unchanged; if both states match, it reads
`sval = src.upcall_args[1]` and `dptr = dst.upcall_args[0]`, stores `sval`
at `*dptr`, transitions src and dst from their blocked states to Running
(moving both to the running vector), and returns true. -/
theorem C2_attempt_rendezvous :
    (∀ s src dst, ¬((s.procs src).state = .blocked_writing ∧
        (s.procs dst).state = .blocked_reading) →
      attempt_rendezvous s src dst = (false, s)) ∧
    (∀ s src dst, WF s → (s.procs src).state = .blocked_writing →
      (s.procs dst).state = .blocked_reading →
      (attempt_rendezvous s src dst).1 = true ∧
      (attempt_rendezvous s src dst).2.mem =
        Function.update s.mem ((s.procs dst).args 0) ((s.procs src).args 1) ∧
      ((attempt_rendezvous s src dst).2.procs src).state = .running ∧
      ((attempt_rendezvous s src dst).2.procs dst).state = .running ∧
      src ∈ (attempt_rendezvous s src dst).2.running ∧
      dst ∈ (attempt_rendezvous s src dst).2.running ∧
      src ∉ (attempt_rendezvous s src dst).2.blocked ∧
      dst ∉ (attempt_rendezvous s src dst).2.blocked) := by
  constructor
  · intro s src dst h
    exact attempt_rendezvous_fail h
  · intro s src dst h hs hd
    obtain ⟨c1, _, c3, c4, c5, c6, c7, c8, c9, _⟩ :=
      attempt_rendezvous_success h hs hd
    exact ⟨c1, c3, c4, c5, c6, c7, c8, c9⟩

/-- A blocked writer (proc 10, payload 77 in args[1]) and a blocked reader
(proc 11, destination address 1000 in args[0]), both parked in the blocked
vector. -/
def wstate : RTState :=
  { procs := fun p =>
      if p = 10 then { state := .blocked_writing, idx := 0, args := fun i => if i = 1 then 77 else 0 }
      else if p = 11 then { state := .blocked_reading, idx := 1, args := fun i => if i = 0 then 1000 else 0 }
      else {},
    blocked := [10, 11],
    procAlive := fun p => decide (p = 10 ∨ p = 11) }

theorem wstate_WF : WF wstate := by
  constructor
  · intro b j hj
    cases b
    · have hj2 : j < 2 := hj
      interval_cases j
      · exact ⟨by decide, by decide, by decide⟩
      · exact ⟨by decide, by decide, by decide⟩
    · have h0 : (vecB wstate true).length = 0 := by decide
      omega
  · intro b; cases b
    · decide
    · decide
  · intro x hx
    exact absurd hx (List.not_mem_nil x)
  · intro p hp
    by_cases h10 : p = 10
    · subst h10; exact ⟨by decide, by decide⟩
    · by_cases h11 : p = 11
      · subst h11; exact ⟨by decide, by decide⟩
      · exfalso
        have hdef : wstate.procs p = {} := by
          show (if p = 10 then _ else if p = 11 then _ else ({} : Proc)) = {}
          rw [if_neg h10, if_neg h11]
        rw [hdef] at hp
        exact Bool.noConfusion hp

/-- Claim C2 witness: the success branch of `C2_attempt_rendezvous`
evaluated at `wstate` (writer 10, reader 11): the rendezvous returns true,
stores 77 at address 1000 and moves both procs to the running vector. -/
theorem C2_witness :
    (attempt_rendezvous wstate 10 11).1 = true ∧
    (attempt_rendezvous wstate 10 11).2.mem 1000 = 77 ∧
    ((attempt_rendezvous wstate 10 11).2.procs 10).state = .running ∧
    ((attempt_rendezvous wstate 10 11).2.procs 11).state = .running ∧
    10 ∈ (attempt_rendezvous wstate 10 11).2.running ∧
    11 ∈ (attempt_rendezvous wstate 10 11).2.running := by
  obtain ⟨c1, c2, c3, c4, c5, c6, _, _⟩ :=
    C2_attempt_rendezvous.2 wstate 10 11 wstate_WF (by decide) (by decide)
  refine ⟨c1, ?_, c3, c4, c5, c6⟩
  rw [c2]
  decide

/-- Claim C5 exactly as stated: for every spawn upcall, the dispatcher
creates a new proc for the prog in args[1] with state Running, stores its
handle into the out-slot pointed to by args[0], and the created proc is
registered into the Running vector. -/
def C5_claim : Prop :=
  ∀ s q fresh r, (s.procs q).ucode = 2 → s.procAlive fresh = false → fresh ≠ q →
    ((handle_upcall s q fresh r).procs fresh).state = .running ∧
    (handle_upcall s q fresh r).mem ((s.procs q).args 0) = fresh ∧
    fresh ∈ (handle_upcall s q fresh r).running

/-- A registered proc 0 in mid-dispatch of a spawn upcall (out-slot at
address 50). -/
def c5state : RTState :=
  { procs := fun p =>
      if p = 0 then { state := .calling_c, ucode := 2, args := fun i => if i = 0 then 50 else 0 }
      else {},
    running := [0],
    procAlive := fun p => decide (p = 0) }

/-- Claim C5 counterexample: dispatching proc 0's spawn upcall on `c5state`
creates proc 1 (live, state Running, handle stored at address 50) but the
running vector is still `[0]`: the new proc is NOT registered, so the claim
as stated is false. -/
theorem C5_cex : ¬ C5_claim := by
  intro h
  obtain ⟨_, _, hmem⟩ := h c5state 0 1 0 (by decide) (by decide) (by decide)
  exact absurd hmem (by decide)

/-- Claim C5 (amended): for every spawn upcall, the dispatcher creates a new
zeroed proc record at the fresh address (state Running, live) and stores its
handle into the out-slot pointed to by args[0], but it does NOT register the
proc into the Running vector: both scheduler vectors are unchanged, and in a
well-formed state the new proc is in neither vector (registration happens
separately, through the sched upcall or the driver's root spawn). -/
theorem C5_spawn (s : RTState) (q fresh r : Nat)
    (hu : (s.procs q).ucode = 2) (hfq : fresh ≠ q) :
    (handle_upcall s q fresh r).procs fresh = {} ∧
    ((handle_upcall s q fresh r).procs fresh).state = .running ∧
    (handle_upcall s q fresh r).procAlive fresh = true ∧
    (handle_upcall s q fresh r).mem ((s.procs q).args 0) = fresh ∧
    (handle_upcall s q fresh r).running = s.running ∧
    (handle_upcall s q fresh r).blocked = s.blocked ∧
    (s.procAlive fresh = false → WF s →
      fresh ∉ (handle_upcall s q fresh r).running ∧
      fresh ∉ (handle_upcall s q fresh r).blocked) := by
  unfold handle_upcall
  dsimp only
  rw [hu]
  dsimp only
  have hpf : Function.update (Function.update s.procs fresh ({} : Proc)) q
      { Function.update s.procs fresh ({} : Proc) q with ucode := 0 } fresh = ({} : Proc) := by
    rw [Function.update_noteq hfq, Function.update_same]
  refine ⟨hpf, by rw [hpf], ?_, ?_, rfl, rfl, ?_⟩
  · show Function.update s.procAlive fresh true fresh = true
    rw [Function.update_same]
  · show Function.update s.mem ((s.procs q).args 0) fresh ((s.procs q).args 0) = fresh
    rw [Function.update_same]
  · intro hna hwf
    constructor
    · show fresh ∉ s.running
      intro hin
      obtain ⟨_, _, _, ha⟩ := mem_placed hwf (show fresh ∈ vecB s true from hin)
      rw [ha] at hna
      exact Bool.noConfusion hna
    · show fresh ∉ s.blocked
      intro hin
      obtain ⟨_, _, _, ha⟩ := mem_placed hwf (show fresh ∈ vecB s false from hin)
      rw [ha] at hna
      exact Bool.noConfusion hna

/-- Claim C5 witness: `C5_spawn` evaluated at `c5state` with fresh handle 1:
the new proc is live and Running, its handle is at address 50, and the
vectors are unchanged. -/
theorem C5_witness :
    ((handle_upcall c5state 0 1 0).procs 1).state = .running ∧
    (handle_upcall c5state 0 1 0).procAlive 1 = true ∧
    (handle_upcall c5state 0 1 0).mem 50 = 1 ∧
    (handle_upcall c5state 0 1 0).running = c5state.running := by
  obtain ⟨_, c2, c3, c4, c5, _, _⟩ := C5_spawn c5state 0 1 0 (by decide) (by decide)
  exact ⟨c2, c3, by rw [show (50 : Nat) = (c5state.procs 0).args 0 from by decide]; exact c4, c5⟩

theorem glue_return_procs (s : RTState) (q : Nat) (t : ProcState)
    (ar : Fin 8 → Nat) (uc : Nat) (nm : Nat → Nat) (x : Nat) :
    (glue_return s q t ar uc nm).procs x =
      if x = q then { s.procs q with state := t, args := ar, ucode := uc }
      else s.procs x := by
  unfold glue_return
  dsimp only
  by_cases hx : x = q
  · subst hx; rw [Function.update_same, if_pos rfl]
  · rw [Function.update_noteq hx, if_neg hx]

theorem glue_return_rest (s : RTState) (q : Nat) (t : ProcState)
    (ar : Fin 8 → Nat) (uc : Nat) (nm : Nat → Nat) :
    (glue_return s q t ar uc nm).running = s.running ∧
    (glue_return s q t ar uc nm).blocked = s.blocked ∧
    (glue_return s q t ar uc nm).ports = s.ports ∧
    (glue_return s q t ar uc nm).chans = s.chans ∧
    (glue_return s q t ar uc nm).mem = nm ∧
    (glue_return s q t ar uc nm).procAlive = s.procAlive :=
  ⟨rfl, rfl, rfl, rfl, rfl, rfl⟩

theorem upcall_recv_no_writers {s : RTState} {dst pt : Nat} (r : Nat)
    (hw : ((proc_state_transition s dst .blocked_reading).ports pt).writers = []) :
    upcall_recv s dst pt r = proc_state_transition s dst .blocked_reading := by
  unfold upcall_recv
  dsimp only
  rw [hw]
  rw [if_neg (by simp)]

theorem upcall_send_queued {s : RTState} {A c P B : Nat} (hWF : WF s)
    (hcp : (s.chans c).port = P) (hq : (s.chans c).queued = false)
    (hpo : (s.ports P).proc = some B) (hw : (s.ports P).writers = [])
    (hA : (s.procs A).state = .calling_c) (hAmem : A ∈ s.running)
    (hBnr : (s.procs B).state ≠ .blocked_reading) (hAB : A ≠ B) :
    WF (upcall_send s A c) ∧
    ((upcall_send s A c).procs A).state = .blocked_writing ∧
    ((upcall_send s A c).procs A).args = (s.procs A).args ∧
    (∀ y, y ≠ A → ((upcall_send s A c).procs y).state = (s.procs y).state ∧
      ((upcall_send s A c).procs y).args = (s.procs y).args) ∧
    (upcall_send s A c).mem = s.mem ∧
    ((upcall_send s A c).ports P).writers = [c] ∧
    ((upcall_send s A c).chans c).proc = A ∧
    ((upcall_send s A c).chans c).idx = 0 ∧
    ((upcall_send s A c).chans c).port = P ∧
    (∀ y, y ≠ A → ∀ b', (y ∈ vecB (upcall_send s A c) b' ↔ y ∈ vecB s b')) := by
  have h0 : WF { s with chans := Function.update s.chans c { s.chans c with proc := A } } :=
    WF_of_eq hWF rfl rfl rfl rfl
  have hsc : ({ s with chans := Function.update s.chans c { s.chans c with proc := A } }.ports ({ s with chans := Function.update s.chans c { s.chans c with proc := A } }.chans c).port).proc = some B := by
    show (s.ports ((Function.update s.chans c { s.chans c with proc := A } c).port)).proc = some B
    rw [Function.update_same]
    show (s.ports (s.chans c).port).proc = some B
    rw [hcp]; exact hpo
  have T := proc_state_transition_spec h0
    (show stateVecClass ({ s with chans := Function.update s.chans c { s.chans c with proc := A } }.procs A).state = true by
      show stateVecClass (s.procs A).state = true
      rw [hA]; rfl)
    (show A ∈ vecB { s with chans := Function.update s.chans c { s.chans c with proc := A } } true from hAmem)
    .blocked_writing
  have hfail : attempt_rendezvous (proc_state_transition { s with chans := Function.update s.chans c { s.chans c with proc := A } } A .blocked_writing) A B = (false, proc_state_transition { s with chans := Function.update s.chans c { s.chans c with proc := A } } A .blocked_writing) := by
    apply attempt_rendezvous_fail
    intro hcon
    apply hBnr
    have hBst := (T.others B (fun hh => hAB hh.symm)).1
    rw [hBst] at hcon
    exact hcon.2
  have hch1 : (proc_state_transition { s with chans := Function.update s.chans c { s.chans c with proc := A } } A .blocked_writing).chans = Function.update s.chans c { s.chans c with proc := A } := T.chans
  have hqf : ((proc_state_transition { s with chans := Function.update s.chans c { s.chans c with proc := A } } A .blocked_writing).chans c).queued = false := by
    rw [hch1, Function.update_same]
    exact hq
  have hpt : ((proc_state_transition { s with chans := Function.update s.chans c { s.chans c with proc := A } } A .blocked_writing).chans c).port = P := by
    rw [hch1, Function.update_same]
    exact hcp
  have hpw : (proc_state_transition { s with chans := Function.update s.chans c { s.chans c with proc := A } } A .blocked_writing).ports = s.ports := T.ports
  have hwr : ((proc_state_transition { s with chans := Function.update s.chans c { s.chans c with proc := A } } A .blocked_writing).ports ((proc_state_transition { s with chans := Function.update s.chans c { s.chans c with proc := A } } A .blocked_writing).chans c).port).writers = [] := by
    rw [hpt, hpw, hw]
  dsimp only at hsc hfail hch1 hqf hpt hpw hwr
  unfold upcall_send
  dsimp only
  rw [hsc]
  dsimp only
  rw [hfail]
  dsimp only
  rw [hqf]
  rw [if_neg (by simp)]
  dsimp only
  refine ⟨?_, ?_, ?_, ?_, ?_, ?_, ?_, ?_, ?_, ?_⟩
  · exact WF_of_eq T.wf rfl rfl rfl rfl
  · exact T.pstate
  · exact T.pargs
  · intro y hy
    exact ⟨(T.others y hy).1, (T.others y hy).2.1⟩
  · exact T.mem
  · rw [hpt, Function.update_same]
    dsimp only
    rw [hpw, hw]
    rfl
  · rw [Function.update_same]
    dsimp only
    rw [hch1, Function.update_same]
  · rw [Function.update_same]
    dsimp only
    rw [hpt, hpw, hw]
    rfl
  · rw [Function.update_same]
    dsimp only
    rw [hch1, Function.update_same]
    exact hcp
  · intro y hy b'
    have h1 : (y ∈ vecB (proc_state_transition { s with chans := Function.update s.chans c { s.chans c with proc := A } } A .blocked_writing) b' ↔ y ∈ vecB s b') := T.memiff y hy b'
    cases b'
    · exact h1
    · exact h1

theorem upcall_send_rendezvous {s : RTState} {A c P B : Nat} (hWF : WF s)
    (hcp : (s.chans c).port = P) (hpo : (s.ports P).proc = some B)
    (hA : (s.procs A).state = .calling_c) (hAmem : A ∈ s.running)
    (hB : (s.procs B).state = .blocked_reading) (hAB : A ≠ B) :
    ((upcall_send s A c).procs A).state = .running ∧
    ((upcall_send s A c).procs B).state = .running ∧
    A ∈ (upcall_send s A c).running ∧
    B ∈ (upcall_send s A c).running ∧
    (upcall_send s A c).mem =
      Function.update s.mem ((s.procs B).args 0) ((s.procs A).args 1) ∧
    WF (upcall_send s A c) := by
  have h0 : WF { s with chans := Function.update s.chans c { s.chans c with proc := A } } :=
    WF_of_eq hWF rfl rfl rfl rfl
  have hsc : ({ s with chans := Function.update s.chans c { s.chans c with proc := A } }.ports ({ s with chans := Function.update s.chans c { s.chans c with proc := A } }.chans c).port).proc = some B := by
    show (s.ports ((Function.update s.chans c { s.chans c with proc := A } c).port)).proc = some B
    rw [Function.update_same]
    show (s.ports (s.chans c).port).proc = some B
    rw [hcp]; exact hpo
  have T := proc_state_transition_spec h0
    (show stateVecClass ({ s with chans := Function.update s.chans c { s.chans c with proc := A } }.procs A).state = true by
      show stateVecClass (s.procs A).state = true
      rw [hA]; rfl)
    (show A ∈ vecB { s with chans := Function.update s.chans c { s.chans c with proc := A } } true from hAmem)
    .blocked_writing
  have hd1 : ((proc_state_transition { s with chans := Function.update s.chans c { s.chans c with proc := A } } A .blocked_writing).procs B).state = .blocked_reading := by
    rw [(T.others B (fun hh => hAB hh.symm)).1]
    exact hB
  have S := attempt_rendezvous_success T.wf T.pstate hd1
  obtain ⟨S1, S2, S3, S4, S5, S6, S7, S8, S9, S10, S11, S12, S13, S14, S15, S16, S17, S18⟩ := S
  have hmemeq : (attempt_rendezvous (proc_state_transition { s with chans := Function.update s.chans c { s.chans c with proc := A } } A .blocked_writing) A B).2.mem = Function.update s.mem ((s.procs B).args 0) ((s.procs A).args 1) := by
    rw [S3]
    rw [(T.others B (fun hh => hAB hh.symm)).2.1, T.pargs, T.mem]
  dsimp only at hsc S1 S4 S5 S6 S7 hmemeq S2
  unfold upcall_send
  dsimp only
  rw [hsc]
  dsimp only
  rw [S1]
  rw [show (true || ((attempt_rendezvous (proc_state_transition { s with chans := Function.update s.chans c { s.chans c with proc := A } } A .blocked_writing) A B).2.chans c).queued) = true from Bool.true_or _]
  rw [if_pos rfl]
  exact ⟨S4, S5, S6, S7, hmemeq, S2⟩

theorem upcall_recv_single_writer {u : RTState} {A B c P : Nat} (r : Nat) (hWF : WF u)
    (hB : (u.procs B).state = .calling_c) (hBmem : B ∈ u.running)
    (hwr : (u.ports P).writers = [c])
    (hcidx : (u.chans c).idx = 0)
    (hcproc : (u.chans c).proc = A)
    (hA : (u.procs A).state = .blocked_writing) (hAB : A ≠ B) :
    ((upcall_recv u B P r).procs A).state = .running ∧
    ((upcall_recv u B P r).procs B).state = .running ∧
    A ∈ (upcall_recv u B P r).running ∧
    B ∈ (upcall_recv u B P r).running ∧
    (upcall_recv u B P r).mem =
      Function.update u.mem ((u.procs B).args 0) ((u.procs A).args 1) ∧
    ((upcall_recv u B P r).ports P).writers = [] ∧
    ((upcall_recv u B P r).chans c).queued = false := by
  have T1 := proc_state_transition_spec hWF
    (show stateVecClass (u.procs B).state = true by rw [hB]; rfl)
    (show B ∈ vecB u true from hBmem)
    .blocked_reading
  have hw1 : ((proc_state_transition u B .blocked_reading).ports P).writers = [c] := by
    rw [T1.ports]; exact hwr
  have hsrc : ((proc_state_transition u B .blocked_reading).chans c).proc = A := by
    rw [T1.chans]; exact hcproc
  have hA1 : ((proc_state_transition u B .blocked_reading).procs A).state = .blocked_writing := by
    rw [(T1.others A hAB).1]; exact hA
  have S := attempt_rendezvous_success T1.wf hA1 T1.pstate
  obtain ⟨S1, S2, S3, S4, S5, S6, S7, S8, S9, S10, S11, S12, S13, S14, S15, S16, S17, S18⟩ := S
  have hmemeq : (attempt_rendezvous (proc_state_transition u B .blocked_reading) A B).2.mem =
      Function.update u.mem ((u.procs B).args 0) ((u.procs A).args 1) := by
    rw [S3]
    rw [(T1.others A hAB).2.1, T1.pargs, T1.mem]
  have hridx : ((attempt_rendezvous (proc_state_transition u B .blocked_reading) A B).2.chans c).idx = 0 := by
    rw [S14, T1.chans]; exact hcidx
  have hrwr : ((attempt_rendezvous (proc_state_transition u B .blocked_reading) A B).2.ports P).writers = [c] := by
    rw [S13, T1.ports]; exact hwr
  have hsc3 := chan_vec_swapdel_scalars
    (attempt_rendezvous (proc_state_transition u B .blocked_reading) A B).2 P c
  have hport3 := chan_vec_swapdel_ports
    (attempt_rendezvous (proc_state_transition u B .blocked_reading) A B).2 P c P
  unfold upcall_recv
  dsimp only
  rw [hw1]
  rw [if_pos (by simp)]
  rw [show ([c].getD (r % [c].length) 0 : Nat) = c by simp [Nat.mod_one]]
  rw [hsrc]
  rw [S1]
  rw [if_pos rfl]
  refine ⟨?_, ?_, ?_, ?_, ?_, ?_, ?_⟩
  · show ((chan_vec_swapdel _ P c).procs A).state = .running
    rw [hsc3.1]
    exact S4
  · show ((chan_vec_swapdel _ P c).procs B).state = .running
    rw [hsc3.1]
    exact S5
  · show A ∈ (chan_vec_swapdel _ P c).running
    rw [hsc3.2.1]
    exact S6
  · show B ∈ (chan_vec_swapdel _ P c).running
    rw [hsc3.2.1]
    exact S7
  · show (chan_vec_swapdel _ P c).mem = _
    rw [hsc3.2.2.2.1]
    exact hmemeq
  · show ((chan_vec_swapdel _ P c).ports P).writers = []
    rw [hport3, if_pos rfl]
    dsimp only
    rw [hrwr, hridx]
    rfl
  · dsimp only
    rw [Function.update_same]

/-- The upcall arguments of a recv into address `x` from port `pt`:
args[0] = out-slot address, args[1] = port. -/
def recv_args (x pt : Nat) : Fin 8 → Nat :=
  fun i => if i = 0 then x else if i = 1 then pt else 0

/-- Order 1 of claim C1: A's send upcall runs first (the chan is queued on
the port), then B comes back from its trampoline with a recv upcall and the
dispatcher runs it. -/
def c1_send_first (s : RTState) (A B c P x r : Nat) : RTState :=
  upcall_recv (glue_return (upcall_send s A c) B .calling_c (recv_args x P) 11
    (upcall_send s A c).mem) B P r

/-- Order 2 of claim C1: B's recv upcall runs first (B blocks on the empty
writer queue), then A's send upcall rendezvouses immediately. -/
def c1_recv_first (s : RTState) (A B c P x r : Nat) : RTState :=
  upcall_send (upcall_recv (glue_return s B .calling_c (recv_args x P) 11 s.mem) B P r) A c

/-- Claim C1: Rendezvous round-trip: if proc A performs a send upcall of
value v on a channel bound to port P owned by proc B, and B performs a recv
upcall into address x (in either order, covering both the
immediate-rendezvous path and the queued-writer path), then after both
procs have returned to Running, the word stored at x equals v. -/
theorem C1_rendezvous_roundtrip (s : RTState) (A B c P v x r : Nat)
    (hWF : WF s) (hAB : A ≠ B)
    (hcp : (s.chans c).port = P) (hq : (s.chans c).queued = false)
    (hpo : (s.ports P).proc = some B) (hw : (s.ports P).writers = [])
    (hA : (s.procs A).state = .calling_c) (hAv : (s.procs A).args 1 = v)
    (hAmem : A ∈ s.running)
    (hB : (s.procs B).state = .running) (hBmem : B ∈ s.running) :
    ((c1_send_first s A B c P x r).procs A).state = .running ∧
    ((c1_send_first s A B c P x r).procs B).state = .running ∧
    A ∈ (c1_send_first s A B c P x r).running ∧
    B ∈ (c1_send_first s A B c P x r).running ∧
    (c1_send_first s A B c P x r).mem x = v ∧
    ((c1_send_first s A B c P x r).chans c).queued = false ∧
    ((c1_send_first s A B c P x r).ports P).writers = [] ∧
    ((c1_recv_first s A B c P x r).procs A).state = .running ∧
    ((c1_recv_first s A B c P x r).procs B).state = .running ∧
    A ∈ (c1_recv_first s A B c P x r).running ∧
    B ∈ (c1_recv_first s A B c P x r).running ∧
    (c1_recv_first s A B c P x r).mem x = v := by
  have hBA : B ≠ A := fun hh => hAB hh.symm
  have hra0 : recv_args x P 0 = x := rfl
  -- ===== order 1: send first, then recv =====
  have hBnr : (s.procs B).state ≠ .blocked_reading := by rw [hB]; simp
  obtain ⟨Qwf, Q2, Q3, Q4, Q5, Q6, Q7, Q8, Q9, Q10⟩ :=
    upcall_send_queued hWF hcp hq hpo hw hA hAmem hBnr hAB
  have hB1mem : B ∈ (upcall_send s A c).running := (Q10 B hBA true).mpr hBmem
  have hwf1b : WF (glue_return (upcall_send s A c) B .calling_c (recv_args x P) 11 (upcall_send s A c).mem) :=
    glue_return_WF Qwf hB1mem (by rfl) (recv_args x P) 11 _
  have hgp := glue_return_procs (upcall_send s A c) B .calling_c (recv_args x P) 11 (upcall_send s A c).mem
  have hBst1b : ((glue_return (upcall_send s A c) B .calling_c (recv_args x P) 11 (upcall_send s A c).mem).procs B).state = .calling_c := by
    rw [hgp B, if_pos rfl]
  have hAst1b : ((glue_return (upcall_send s A c) B .calling_c (recv_args x P) 11 (upcall_send s A c).mem).procs A).state = .blocked_writing := by
    rw [hgp A, if_neg hAB]
    exact Q2
  have hBargs1b : ((glue_return (upcall_send s A c) B .calling_c (recv_args x P) 11 (upcall_send s A c).mem).procs B).args = recv_args x P := by
    rw [hgp B, if_pos rfl]
  have hAargs1b : ((glue_return (upcall_send s A c) B .calling_c (recv_args x P) 11 (upcall_send s A c).mem).procs A).args = (s.procs A).args := by
    rw [hgp A, if_neg hAB]
    exact Q3
  obtain ⟨R1, R2, R3, R4, R5, R6, R7⟩ :=
    upcall_recv_single_writer r hwf1b hBst1b
      (show B ∈ (glue_return (upcall_send s A c) B .calling_c (recv_args x P) 11 (upcall_send s A c).mem).running from hB1mem)
      (show ((glue_return (upcall_send s A c) B .calling_c (recv_args x P) 11 (upcall_send s A c).mem).ports P).writers = [c] from Q6)
      (show ((glue_return (upcall_send s A c) B .calling_c (recv_args x P) 11 (upcall_send s A c).mem).chans c).idx = 0 from Q8)
      (show ((glue_return (upcall_send s A c) B .calling_c (recv_args x P) 11 (upcall_send s A c).mem).chans c).proc = A from Q7)
      hAst1b hAB
  have hmem1 : (c1_send_first s A B c P x r).mem = Function.update s.mem x v := by
    unfold c1_send_first
    rw [R5, hBargs1b, hra0, hAargs1b, hAv]
    show Function.update (upcall_send s A c).mem x v = _
    rw [Q5]
  -- ===== order 2: recv first (blocks), then send rendezvouses =====
  have hwf2a : WF (glue_return s B .calling_c (recv_args x P) 11 s.mem) :=
    glue_return_WF hWF hBmem (by rfl) (recv_args x P) 11 s.mem
  have hgp2 := glue_return_procs s B .calling_c (recv_args x P) 11 s.mem
  have hBst2a : ((glue_return s B .calling_c (recv_args x P) 11 s.mem).procs B).state = .calling_c := by
    rw [hgp2 B, if_pos rfl]
  have T2 := proc_state_transition_spec hwf2a
    (show stateVecClass ((glue_return s B .calling_c (recv_args x P) 11 s.mem).procs B).state = true by rw [hBst2a]; rfl)
    (show B ∈ vecB (glue_return s B .calling_c (recv_args x P) 11 s.mem) true from hBmem)
    .blocked_reading
  have hrecv2 : upcall_recv (glue_return s B .calling_c (recv_args x P) 11 s.mem) B P r =
      proc_state_transition (glue_return s B .calling_c (recv_args x P) 11 s.mem) B .blocked_reading := by
    apply upcall_recv_no_writers
    rw [T2.ports]
    exact hw
  have hcp2 : ((proc_state_transition (glue_return s B .calling_c (recv_args x P) 11 s.mem) B .blocked_reading).chans c).port = P := by
    rw [T2.chans]
    exact hcp
  have hpo2 : ((proc_state_transition (glue_return s B .calling_c (recv_args x P) 11 s.mem) B .blocked_reading).ports P).proc = some B := by
    rw [T2.ports]
    exact hpo
  have hA2 : ((proc_state_transition (glue_return s B .calling_c (recv_args x P) 11 s.mem) B .blocked_reading).procs A).state = .calling_c := by
    rw [(T2.others A hAB).1, hgp2 A, if_neg hAB]
    exact hA
  have hA2mem : A ∈ (proc_state_transition (glue_return s B .calling_c (recv_args x P) 11 s.mem) B .blocked_reading).running := by
    have := (T2.memiff A hAB true).mpr
      (show A ∈ vecB (glue_return s B .calling_c (recv_args x P) 11 s.mem) true from hAmem)
    exact this
  obtain ⟨W1, W2, W3, W4, W5, W6⟩ :=
    upcall_send_rendezvous T2.wf hcp2 hpo2 hA2 hA2mem T2.pstate hAB
  have hmem2 : (c1_recv_first s A B c P x r).mem = Function.update s.mem x v := by
    unfold c1_recv_first
    rw [hrecv2, W5, T2.pargs, (T2.others A hAB).2.1, T2.mem]
    rw [hgp2 B, if_pos rfl, hgp2 A, if_neg hAB]
    show Function.update s.mem (recv_args x P 0) ((s.procs A).args 1) = _
    rw [hra0, hAv]
  refine ⟨R1, R2, R3, R4, ?_, R7, R6, ?_, ?_, ?_, ?_, ?_⟩
  · rw [hmem1, Function.update_same]
  · show ((upcall_send (upcall_recv (glue_return s B .calling_c (recv_args x P) 11 s.mem) B P r) A c).procs A).state = .running
    rw [hrecv2]
    exact W1
  · show ((upcall_send (upcall_recv (glue_return s B .calling_c (recv_args x P) 11 s.mem) B P r) A c).procs B).state = .running
    rw [hrecv2]
    exact W2
  · show A ∈ (upcall_send (upcall_recv (glue_return s B .calling_c (recv_args x P) 11 s.mem) B P r) A c).running
    rw [hrecv2]
    exact W3
  · show B ∈ (upcall_send (upcall_recv (glue_return s B .calling_c (recv_args x P) 11 s.mem) B P r) A c).running
    rw [hrecv2]
    exact W4
  · rw [hmem2, Function.update_same]

/-- A concrete runtime for the C1 witness: sender proc 20 (mid-send of value
77 on chan 5), receiver proc 21 owning port 6, both registered Running-class,
chan 5 bound to port 6, empty writer queue. -/
def c1state : RTState :=
  { procs := fun p =>
      if p = 20 then { state := .calling_c, idx := 0, ucode := 10, args := fun i => if i = 0 then 5 else if i = 1 then 77 else 0 }
      else if p = 21 then { state := .running, idx := 1 }
      else {},
    ports := fun pt => if pt = 6 then { proc := some 21, writers := [] } else {},
    chans := fun ch => if ch = 5 then { port := 6, proc := 20, queued := false, idx := 0 } else {},
    running := [20, 21],
    procAlive := fun p => decide (p = 20 ∨ p = 21) }

theorem c1state_WF : WF c1state := by
  constructor
  · intro b j hj
    cases b
    · have h0 : (vecB c1state false).length = 0 := by decide
      omega
    · have hj2 : j < 2 := hj
      interval_cases j
      · exact ⟨by decide, by decide, by decide⟩
      · exact ⟨by decide, by decide, by decide⟩
  · intro b; cases b
    · decide
    · decide
  · intro x hx
    exact List.not_mem_nil x
  · intro p hp
    by_cases h20 : p = 20
    · subst h20; exact absurd hp (by decide)
    · by_cases h21 : p = 21
      · subst h21; exact absurd hp (by decide)
      · exfalso
        have hdef : c1state.procs p = {} := by
          show (if p = 20 then _ else if p = 21 then _ else ({} : Proc)) = {}
          rw [if_neg h20, if_neg h21]
        rw [hdef] at hp
        exact Bool.noConfusion hp

/-- Claim C1 witness: `C1_rendezvous_roundtrip` evaluated at `c1state`:
in both interleavings both procs end Running and the word 77 lands at
address 900. -/
theorem C1_witness :
    (c1_send_first c1state 20 21 5 6 900 0).mem 900 = 77 ∧
    ((c1_send_first c1state 20 21 5 6 900 0).procs 20).state = .running ∧
    ((c1_send_first c1state 20 21 5 6 900 0).procs 21).state = .running ∧
    (c1_recv_first c1state 20 21 5 6 900 0).mem 900 = 77 ∧
    ((c1_recv_first c1state 20 21 5 6 900 0).procs 20).state = .running ∧
    ((c1_recv_first c1state 20 21 5 6 900 0).procs 21).state = .running := by
  obtain ⟨h1, h2, _, _, h5, _, _, h8, h9, _, _, h12⟩ :=
    C1_rendezvous_roundtrip c1state 20 21 5 6 77 900 0 c1state_WF (by decide)
      (by decide) (by decide) (by decide) (by decide) (by decide) (by decide)
      (by decide) (by decide) (by decide)
  exact ⟨h5, h1, h2, h12, h8, h9⟩
